import Mathlib

/-!
Verification of the 3D-snake simulation core.

This file shallowly embeds the model layer of the repository
(`Position.ts`, `Direction.ts`, `ExclusiveRandomNumberGenerator.ts`,
`Snake.ts`, `GameState.ts`, `GameStateObservable.ts`) in Lean and proves
the specified properties about it.

Modelling conventions:
* JavaScript numbers used as integers are modelled as `Int`
  (all model-layer arithmetic in the sources is on integers).
* A thrown `InvalidRangeError` is modelled with `Except InvalidRangeError`.
  In the sources every `throw` happens before the first mutation of the
  object, so the error branch of the embedding carries no state change.
* `Math.floor(Math.random() * n)` is modelled by taking the drawn value as
  an explicit argument (`r`), with range side conditions as hypotheses.
* Observer notifications (the `for (observer of observers)` loops of
  `GameStateObservable`) are modelled by the emitted event list, plus an
  explicit dispatch loop `notifyLoop` pairing each registered observer
  with the event, in registration order.
* The `window.localStorage` / `fetch` interaction on game over is external
  I/O; the model records that a score submission was initiated
  (`Option Int` carrying the submitted score).  The game-over notification
  itself is fired from the `then`/`catch` callback of that `fetch`, i.e.
  only after `goToNextState` has returned, which the model reflects by
  keeping it out of the synchronous event list.
-/

namespace Snake3D

/-- A 3D integer coordinate (`src/model/Position.ts`).  Equality of
positions is value equality, as implemented by `Position.equals`. -/
structure Position where
  x : Int
  y : Int
  z : Int
deriving DecidableEq, Repr

instance : Inhabited Position := ⟨⟨0, 0, 0⟩⟩

/-- The six axis directions (`src/model/Direction.ts`). -/
inductive Direction where
  | xPos
  | xNeg
  | yPos
  | yNeg
  | zPos
  | zNeg
deriving DecidableEq, Repr, Fintype

/-- The numeric enum value of a direction as declared in `Direction.ts`
(`X_POSITIVE = 1, X_NEGATIVE = -1, Y_POSITIVE = 2, Y_NEGATIVE = -2,
Z_POSITIVE = 3, Z_NEGATIVE = -3`). -/
def Direction.value : Direction → Int
  | .xPos => 1
  | .xNeg => -1
  | .yPos => 2
  | .yNeg => -2
  | .zPos => 3
  | .zNeg => -3

/-- Recovers a direction from its numeric enum value, if any.  This is the
decoding half of the `Direction` enum representation. -/
def Direction.ofValue? (v : Int) : Option Direction :=
  if v = 1 then some .xPos
  else if v = -1 then some .xNeg
  else if v = 2 then some .yPos
  else if v = -2 then some .yNeg
  else if v = 3 then some .zPos
  else if v = -3 then some .zNeg
  else none

/-- The opposite direction.  The source computes it as the arithmetic
negation `-d` of the enum value; this is the resulting total function on
the six directions. -/
def Direction.opposite : Direction → Direction
  | .xPos => .xNeg
  | .xNeg => .xPos
  | .yPos => .yNeg
  | .yNeg => .yPos
  | .zPos => .zNeg
  | .zNeg => .zPos

/-- The error class `InvalidRangeError` of
`ExclusiveRandomNumberGenerator.ts`. -/
inductive InvalidRangeError where
  | invalidRange
deriving DecidableEq, Repr

/-- State of an `ExclusiveRng` (`ExclusiveRandomNumberGenerator.ts`):
bounds `low`, `high` and the list of excluded integers. -/
structure ExclusiveRng where
  low : Int
  high : Int
  excluded : List Int
deriving DecidableEq, Repr

/-- The scan loop of `generateRandomNumber`: starting from the drawn
candidate, walk the exclusion list once, incrementing the candidate past
every excluded value `<=` the current candidate. -/
def scanExcluded (ex : List Int) (start : Int) : Int :=
  ex.foldl (fun idx e => if e ≤ idx then idx + 1 else idx) start

/-- The method `generateRandomNumber` of `ExclusiveRandomNumberGenerator.ts`.  The
source draws `r = Math.floor(Math.random() * validNumberCount)`; the drawn
`r` is taken as an argument here.  `numberIdx` starts at `low + r` and is
adjusted by the scan; the final range check models the
`if (numberIdx > this.high) throw` branch. -/
def ExclusiveRng.generateRandomNumber (g : ExclusiveRng) (r : Int) :
    Except InvalidRangeError Int :=
  let numberIdx := scanExcluded g.excluded (g.low + r)
  if g.high < numberIdx then .error .invalidRange else .ok numberIdx

/-- One leftward bubbling step sequence over the reversed list: the tail
loop of `addExcluded` swaps the freshly pushed value left while its left
neighbour is strictly greater, and breaks at the first neighbour that is
not.  Walking the reversed prefix, the value moves past every element `x`
with `v < x` and stops in front of the first other element. -/
def placeRev (v : Int) : List Int → List Int
  | [] => [v]
  | x :: xs => if v < x then x :: placeRev v xs else v :: x :: xs

/-- The sequence `excluded.push(v)` followed by the swap-until-break loop of
`addExcluded`, as a functional insertion from the back. -/
def bubbleInsertEnd (l : List Int) (v : Int) : List Int :=
  (placeRev v l.reverse).reverse

/-- The method `addExcluded` of `ExclusiveRandomNumberGenerator.ts`: rejects
out-of-range or already-present values, otherwise pushes the value and
bubbles it back into place.  The `throw` precedes the `push`, so the error
branch leaves the exclusion list untouched. -/
def ExclusiveRng.addExcluded (g : ExclusiveRng) (newExcluded : Int) :
    Except InvalidRangeError ExclusiveRng :=
  if ¬(g.low ≤ newExcluded ∧ newExcluded ≤ g.high) ∨ newExcluded ∈ g.excluded then
    .error .invalidRange
  else
    .ok { g with excluded := bubbleInsertEnd g.excluded newExcluded }

/-- Removes the last occurrence of `a` from `l`.  The scan of
`updateExcluded` keeps overwriting `oldIdx`, so the element removed by the
shift is the one at the **last** index holding `oldExcluded`. -/
def removeLastOcc (l : List Int) (a : Int) : List Int :=
  (l.reverse.erase a).reverse

/-- The carry of the single left-to-right bubble pass at the end of
`updateExcluded`: `c` is the current left element of the compared pair. -/
def bubbleGo (c : Int) : List Int → List Int
  | [] => [c]
  | y :: ys => if c > y then y :: bubbleGo c ys else c :: bubbleGo y ys

/-- The single full left-to-right bubble pass
(`for i in 1..n-1: if arr[i-1] > arr[i] swap`). -/
def bubblePass : List Int → List Int
  | [] => []
  | x :: xs => bubbleGo x xs

/-- The method `updateExcluded` of `ExclusiveRandomNumberGenerator.ts`.  The source
checks the range of the new value, scans the list (throwing when it meets
the new value, remembering the last index of the old value), throws when
the old value was not found, then shifts the prefix right, writes the new
value at index 0 and runs one bubble pass.  All throws happen before any
write, so every error branch leaves the list untouched.  The shift plus
write at index 0 equals removing the last occurrence of the old value and
prepending the new one. -/
def ExclusiveRng.updateExcluded (g : ExclusiveRng) (oldExcluded newExcluded : Int) :
    Except InvalidRangeError ExclusiveRng :=
  if ¬(g.low ≤ newExcluded ∧ newExcluded ≤ g.high) then .error .invalidRange
  else if newExcluded ∈ g.excluded then .error .invalidRange
  else if oldExcluded ∉ g.excluded then .error .invalidRange
  else .ok { g with excluded := bubblePass (newExcluded :: removeLastOcc g.excluded oldExcluded) }

/-- The `ExclusiveRng` constructor: throws when `low > high` or some
element of the initial exclusion list is out of range, and otherwise
stores the bounds and the list sorted ascending (`excluded.sort((a, b) =>
a - b)`, a stable numeric sort, modelled by insertion sort). -/
def mkExclusiveRng (low high : Int) (excluded : List Int) :
    Except InvalidRangeError ExclusiveRng :=
  if ¬(low ≤ high) ∨ ∃ num ∈ excluded, ¬(low ≤ num ∧ num ≤ high) then
    .error .invalidRange
  else
    .ok ⟨low, high, excluded.insertionSort (· ≤ ·)⟩

/-- The constant `GAME_BOX_SIDE` of `Snake.ts`. -/
def GAME_BOX_SIDE : Int := 21

/-- The half edge `Math.floor(GAME_BOX_SIDE / 2)` of the play box. -/
def halfEdge : Int := GAME_BOX_SIDE / 2

/-- The highest flat index of the cubic lattice, `GAME_BOX_SIDE ^ 3 - 1`. -/
def BOX_HIGH : Int := GAME_BOX_SIDE * GAME_BOX_SIDE * GAME_BOX_SIDE - 1

/-- Modelled from the spec: the repository's
`ExclusiveRandomPositionGenerator` class is referenced by `Snake.ts` and
`GameState.ts` but its source file is not in the repository snapshot.
Per spec §4.1 it maps the cubic lattice of side `S` onto the flat index
range `[0, S^3)` via a fixed bijection and reuses the `ExclusiveRng`
machinery over that flat range.  The flattening used here writes a cell as
a 3-digit base-`S` number of its shifted coordinates. -/
def posToFlat (p : Position) : Int :=
  (p.x + halfEdge) + GAME_BOX_SIDE * ((p.y + halfEdge) + GAME_BOX_SIDE * (p.z + halfEdge))

/-- Modelled from the spec: the inverse mapping of `posToFlat`, taking a
sampled flat index back to a 3D coordinate centered at the origin
(range `[-⌊S/2⌋, ⌊S/2⌋]` per axis for indices in `[0, S^3)`). -/
def flatToPos (m : Int) : Position :=
  ⟨m % GAME_BOX_SIDE - halfEdge,
   m / GAME_BOX_SIDE % GAME_BOX_SIDE - halfEdge,
   m / GAME_BOX_SIDE / GAME_BOX_SIDE - halfEdge⟩

/-- Modelled from the spec: the 3D lift of the exclusion generator.  It
owns an `ExclusiveRng` over the flat range `[0, S^3)`. -/
structure ExclusiveRandomPositionGenerator where
  rng : ExclusiveRng
deriving DecidableEq, Repr

/-- Modelled from the spec: the position generator used by `GameState`,
constructed as `new ExclusiveRandomPositionGenerator((GAME_BOX_SIDE - 1) / 2)`
with an initially empty exclusion set over the flat range. -/
def mkPositionGenerator : ExclusiveRandomPositionGenerator :=
  ⟨⟨0, BOX_HIGH, []⟩⟩

/-- Modelled from the spec: registering a newly occupied cell
(`addOcuppated`, the spelling used by the callers) adds its flat index to
the exclusion set. -/
def ExclusiveRandomPositionGenerator.addOcuppated
    (g : ExclusiveRandomPositionGenerator) (p : Position) :
    Except InvalidRangeError ExclusiveRandomPositionGenerator :=
  match g.rng.addExcluded (posToFlat p) with
  | .error e => .error e
  | .ok rng1 => .ok ⟨rng1⟩

/-- Modelled from the spec: the substitution operation (`updateOccupated`):
the vacated cell becomes free and the newly occupied cell becomes
excluded, in one `updateExcluded` call. -/
def ExclusiveRandomPositionGenerator.updateOccupated
    (g : ExclusiveRandomPositionGenerator) (oldPos newPos : Position) :
    Except InvalidRangeError ExclusiveRandomPositionGenerator :=
  match g.rng.updateExcluded (posToFlat oldPos) (posToFlat newPos) with
  | .error e => .error e
  | .ok rng1 => .ok ⟨rng1⟩

/-- Modelled from the spec: sampling a free cell (`generate`) samples a
flat index from the wrapped `ExclusiveRng` and maps it back to 3D. -/
def ExclusiveRandomPositionGenerator.generate
    (g : ExclusiveRandomPositionGenerator) (r : Int) :
    Except InvalidRangeError Position :=
  match g.rng.generateRandomNumber r with
  | .error e => .error e
  | .ok m => .ok (flatToPos m)

/-- The events of the observable channel
(`GameStateObservable.ts` / `GameStateObserver.ts`).  The game-over
notification of the source carries five numbers; the run counters and
high scores other than the submitted score come from `localStorage` and
the network response, which are external to the simulation core, so the
model carries the core-computed score. -/
inductive Event where
  | snakeLeft (p : Position)
  | snakeEntered (p : Position)
  | foodLeft (p : Position)
  | foodEntered (p : Position)
  | pointsChanged (n : Int)
  | gameover (score : Int)
deriving DecidableEq, Repr

/-- Whether an event is a game-over notification. -/
def Event.isGameover : Event → Bool
  | .gameover _ => true
  | _ => false

/-- The notification loop of `GameStateObservable`
(`for (observer of observers) observer.handler(arg)`): the handler call
sequence it produces, as observer/event pairs.  Observers are identified
by their registration index. -/
def notifyLoop (observers : List Nat) (e : Event) : List (Nat × Event) :=
  match observers with
  | [] => []
  | o :: rest => (o, e) :: notifyLoop rest e

/-- Dispatch of a whole emitted event list through the observable: one
notification loop per event, in emission order. -/
def dispatchEvents (observers : List Nat) (evs : List Event) : List (Nat × Event) :=
  match evs with
  | [] => []
  | e :: rest => notifyLoop observers e ++ dispatchEvents observers rest

/-- A piece of food (`Food.ts`). -/
structure Food where
  location : Position
deriving DecidableEq, Repr

instance : Inhabited Food := ⟨⟨⟨0, 0, 0⟩⟩⟩

/-- The snake (`Snake.ts`): body cells head-first, facing direction, and
the per-tick rotation lock.  The observable and the generator the source
object holds by reference are passed explicitly to the operations. -/
structure Snake where
  body : List Position
  orientation : Direction
  hasRotatedSinceLastMove : Bool
deriving DecidableEq, Repr

/-- The accessor `getHead`: the body cell at index 0 (the body is never empty). -/
def Snake.getHead (s : Snake) : Position :=
  s.body.headD default

/-- The function `targetBlock`: the cell one lattice step ahead of the head along the
current orientation. -/
def Snake.targetBlock (s : Snake) : Position :=
  let head := s.getHead
  match s.orientation with
  | .xNeg => ⟨head.x - 1, head.y, head.z⟩
  | .xPos => ⟨head.x + 1, head.y, head.z⟩
  | .yPos => ⟨head.x, head.y + 1, head.z⟩
  | .yNeg => ⟨head.x, head.y - 1, head.z⟩
  | .zPos => ⟨head.x, head.y, head.z + 1⟩
  | .zNeg => ⟨head.x, head.y, head.z - 1⟩

/-- The predicate `willEatFoodNext`: true iff the target block equals the food's
location. -/
def Snake.willEatFoodNext (s : Snake) (food : Food) : Bool :=
  s.targetBlock == food.location

/-- The indexed scan of `Array.prototype.some` used by
`isHeadCrossingBody`, carrying the running index. -/
def anyWithIndex (f : Nat → Position → Bool) : List Position → Nat → Bool
  | [], _ => false
  | p :: ps, i => f i p || anyWithIndex f ps (i + 1)

/-- The predicate `isHeadCrossingBody`: true iff some body cell at index `≠ 0` equals
the head. -/
def Snake.isHeadCrossingBody (s : Snake) : Bool :=
  anyWithIndex (fun idx position => idx != 0 && (s.getHead == position)) s.body 0

/-- The predicate `isHeadOutOfGameBounds`: true iff some head coordinate exceeds
`±⌊GAME_BOX_SIDE / 2⌋`. -/
def Snake.isHeadOutOfGameBounds (s : Snake) : Bool :=
  let head := s.getHead
  head.x < -halfEdge || head.x > halfEdge ||
  head.y < -halfEdge || head.y > halfEdge ||
  head.z < -halfEdge || head.z > halfEdge

/-- The method `tryToSetDirection`: accepts the new direction only when it is not the
arithmetic negation of the current orientation's enum value and no
rotation was accepted since the last move; otherwise a silent no-op. -/
def Snake.tryToSetDirection (s : Snake) (direction : Direction) : Snake :=
  if direction.value ≠ -s.orientation.value ∧ s.hasRotatedSinceLastMove = false then
    { s with orientation := direction, hasRotatedSinceLastMove := true }
  else
    s

/-- The method `moveAndNotGrow`: notify the vacated tail cell, shift the body one
slot tailward, place the new head at the target cell, notify the new head
cell, clear the rotation lock, and — only when the new head is in bounds
and not crossing the body — substitute the occupancy of the vacated tail
cell by the new head cell on the generator.  The body shift plus the write
at index 0 equals dropping the last cell and prepending the target. -/
def Snake.moveAndNotGrow (s : Snake) (g : ExclusiveRandomPositionGenerator) :
    Snake × List Event × Except InvalidRangeError ExclusiveRandomPositionGenerator :=
  let blockLeft := s.body.getLastD default
  let target := s.targetBlock
  let s1 : Snake := { s with body := target :: s.body.dropLast, hasRotatedSinceLastMove := false }
  let evs := [Event.snakeLeft blockLeft, Event.snakeEntered target]
  if !s1.isHeadOutOfGameBounds && !s1.isHeadCrossingBody then
    (s1, evs, g.updateOccupated blockLeft target)
  else
    (s1, evs, .ok g)

/-- The method `moveAndGrow`: prepend the target cell as the new head (tail kept),
notify the new head cell, clear the rotation lock. -/
def Snake.moveAndGrow (s : Snake) : Snake × List Event :=
  let target := s.targetBlock
  ({ s with body := target :: s.body, hasRotatedSinceLastMove := false },
   [Event.snakeEntered target])

/-- The `Snake` constructor: body `[(0,0,0)]`, initial cell registered as
occupied, orientation `+X`, snake-entered notification, rotation lock
clear. -/
def mkSnake (g : ExclusiveRandomPositionGenerator) :
    Except InvalidRangeError (Snake × ExclusiveRandomPositionGenerator × List Event) :=
  match g.addOcuppated ⟨0, 0, 0⟩ with
  | .error e => .error e
  | .ok g1 => .ok (⟨[⟨0, 0, 0⟩], Direction.xPos, false⟩, g1, [Event.snakeEntered ⟨0, 0, 0⟩])

/-- The constant `FOOD_AMOUNT` of the `GameState` constructor. -/
def FOOD_AMOUNT : Nat := 10

/-- The game state (`GameState.ts`). -/
structure GameState where
  snake : Snake
  foods : List Food
  points : Int
  gameover : Bool
  rng : ExclusiveRandomPositionGenerator
deriving DecidableEq, Repr

/-- All cells currently holding a snake segment or a food item. -/
def occupiedCells (gs : GameState) : List Position :=
  gs.snake.body ++ gs.foods.map Food.location

/-- The method `replaceFood`: optionally notify that the food at `idx` left, sample a
fresh cell (`createRandomFood`), register it as occupied, store the new
food (replacing index `idx`, or appending when no index was given), and
notify the entered cell.  `draw` is the random draw used by the sample. -/
def GameState.replaceFood (gs : GameState) (idx : Option Nat) (draw : Nat) :
    Except InvalidRangeError (GameState × List Event) :=
  let evsLeft := match idx with
    | some i => [Event.foodLeft (gs.foods.getD i default).location]
    | none => []
  match gs.rng.generate draw with
  | .error e => .error e
  | .ok pos =>
    match gs.rng.addOcuppated pos with
    | .error e => .error e
    | .ok rng1 =>
      let foods1 := match idx with
        | some i => gs.foods.set i ⟨pos⟩
        | none => gs.foods ++ [⟨pos⟩]
      .ok ({ gs with rng := rng1, foods := foods1 }, evsLeft ++ [Event.foodEntered pos])

/-- The method `indexOfFoodToBeEaten`: index of the first food the snake would eat on
its next step (`findIndex`), if any. -/
def GameState.indexOfFoodToBeEaten (gs : GameState) : Option Nat :=
  gs.foods.findIdx? (fun food => gs.snake.willEatFoodNext food)

/-- The check `isNowGameOver`: self-collision or out-of-bounds head. -/
def GameState.isNowGameOver (gs : GameState) : Bool :=
  gs.snake.isHeadCrossingBody || gs.snake.isHeadOutOfGameBounds

/-- The tail of `goToNextState`: evaluate the termination condition; on
termination set the terminal flag and initiate the score submission whose
callback will deliver the game-over notification (the `Option Int` is the
submitted score; `none` means no submission was initiated). -/
def finishTick (gs : GameState) (evs : List Event) :
    GameState × List Event × Option Int :=
  if gs.isNowGameOver then
    ({ gs with gameover := true }, evs, some gs.points)
  else
    (gs, evs, none)

/-- The method `goToNextState`: if no food is about to be eaten, `moveAndNotGrow`;
otherwise replace the eaten food, `moveAndGrow` and increment the score
(notifying the change); then evaluate the termination condition. -/
def GameState.goToNextState (gs : GameState) (draw : Nat) :
    Except InvalidRangeError (GameState × List Event × Option Int) :=
  match gs.indexOfFoodToBeEaten with
  | none =>
    let res := gs.snake.moveAndNotGrow gs.rng
    match res.2.2 with
    | .error e => .error e
    | .ok rng1 => .ok (finishTick { gs with snake := res.1, rng := rng1 } res.2.1)
  | some i =>
    match gs.replaceFood (some i) draw with
    | .error e => .error e
    | .ok (gs1, evs1) =>
      let res := gs1.snake.moveAndGrow
      let gs2 := { gs1 with snake := res.1, points := gs1.points + 1 }
      .ok (finishTick gs2 (evs1 ++ res.2 ++ [Event.pointsChanged (gs1.points + 1)]))

/-- The food-placement loop of the `GameState` constructor: `n` calls of
`replaceFood()` with no index, consuming one draw each. -/
def addFoods : Nat → (Nat → Nat) → GameState → Except InvalidRangeError (GameState × List Event)
  | 0, _, gs => .ok (gs, [])
  | n + 1, draws, gs =>
    match gs.replaceFood none (draws 0) with
    | .error e => .error e
    | .ok (gs1, evs1) =>
      match addFoods n (fun k => draws (k + 1)) gs1 with
      | .error e => .error e
      | .ok (gs2, evs2) => .ok (gs2, evs1 ++ evs2)

/-- The `GameState` constructor: fresh generator sized to the play box,
fresh snake (whose initial cell gets excluded), `FOOD_AMOUNT` food
placements, and an initial points notification of `0`. -/
def mkGameState (draws : Nat → Nat) :
    Except InvalidRangeError (GameState × List Event) :=
  match mkSnake mkPositionGenerator with
  | .error e => .error e
  | .ok (snake, rng1, evs1) =>
    match addFoods FOOD_AMOUNT draws
        { snake := snake, foods := [], points := 0, gameover := false, rng := rng1 } with
    | .error e => .error e
    | .ok (gs, evs2) => .ok (gs, evs1 ++ evs2 ++ [Event.pointsChanged 0])

/-! ### Direction lemmas -/

/-- Direction `d` has value `-o`'s value exactly when `d` is `o`'s opposite. -/
theorem Direction.value_eq_neg_iff (d o : Direction) :
    d.value = -o.value ↔ d = o.opposite := by
  revert d o
  decide

/-! ### Head-crossing and out-of-bounds bridges -/

theorem anyWithIndex_of_pos (h : Position) (l : List Position) :
    ∀ i : Nat, 1 ≤ i →
      (anyWithIndex (fun idx position => idx != 0 && (h == position)) l i = true ↔
        ∃ p ∈ l, h = p) := by
  induction l with
  | nil => intro i _; simp [anyWithIndex]
  | cons q l ih =>
    intro i hi
    have hidx : (i != 0) = true := by
      simp only [bne_iff_ne, ne_eq]
      omega
    simp only [anyWithIndex, hidx, Bool.true_and, Bool.or_eq_true, beq_iff_eq,
      List.mem_cons]
    rw [ih (i + 1) (by omega)]
    aesop

/-- Predicate `isHeadCrossingBody` is true exactly when the head occurs in the body
tail. -/
theorem Snake.isHeadCrossingBody_iff (s : Snake) :
    s.isHeadCrossingBody = true ↔ ∃ p ∈ s.body.tail, s.getHead = p := by
  unfold Snake.isHeadCrossingBody
  cases hb : s.body with
  | nil => simp [anyWithIndex]
  | cons b bs =>
    simp only [anyWithIndex, bne_self_eq_false, Bool.false_and, Bool.false_or,
      List.tail_cons]
    exact anyWithIndex_of_pos s.getHead bs 1 (by omega)

/-- Predicate `isHeadOutOfGameBounds` unfolded to the coordinate bounds. -/
theorem Snake.isHeadOutOfGameBounds_iff (s : Snake) :
    s.isHeadOutOfGameBounds = true ↔
      s.getHead.x < -halfEdge ∨ halfEdge < s.getHead.x ∨
      s.getHead.y < -halfEdge ∨ halfEdge < s.getHead.y ∨
      s.getHead.z < -halfEdge ∨ halfEdge < s.getHead.z := by
  simp only [Snake.isHeadOutOfGameBounds, Bool.or_eq_true, decide_eq_true_eq,
    Int.lt_iff_add_one_le, gt_iff_lt]
  omega

/-! ### Integer ranges and the list of valid (non-excluded) values -/

/-- The ascending integer list `low, low + 1, ..., low + n - 1`. -/
def intRange (low : Int) : Nat → List Int
  | 0 => []
  | n + 1 => low :: intRange (low + 1) n

theorem mem_intRange (v : Int) :
    ∀ (n : Nat) (low : Int), v ∈ intRange low n ↔ low ≤ v ∧ v < low + n := by
  intro n
  induction n with
  | zero => intro low; simp [intRange]
  | succ n ih =>
    intro low
    simp only [intRange, List.mem_cons, ih (low + 1)]
    push_cast
    omega

theorem sorted_intRange : ∀ (n : Nat) (low : Int), (intRange low n).Sorted (· < ·) := by
  intro n
  induction n with
  | zero => intro low; simp [intRange]
  | succ n ih =>
    intro low
    rw [intRange, List.sorted_cons]
    refine ⟨fun b hb => ?_, ih (low + 1)⟩
    have := ((mem_intRange b n (low + 1)).1 hb).1
    omega

theorem intRange_append :
    ∀ (a b : Nat) (low : Int),
      intRange low (a + b) = intRange low a ++ intRange (low + a) b := by
  intro a
  induction a with
  | zero => intro b low; simp [intRange]
  | succ a ih =>
    intro b low
    have hsum : a + 1 + b = (a + b) + 1 := by omega
    rw [hsum]
    show low :: intRange (low + 1) (a + b) = (low :: intRange (low + 1) a) ++ intRange (low + ↑(a + 1)) b
    rw [ih b (low + 1), List.cons_append]
    have : low + 1 + (a : Int) = low + ↑(a + 1) := by push_cast; omega
    rw [this]

/-- The ascending list of all integers of `[low, high]` not in `ex`. -/
def validList (low high : Int) (ex : List Int) : List Int :=
  (intRange low (high + 1 - low).toNat).filter (fun v => decide (v ∉ ex))

/-! ### Lemmas about the scan of generateRandomNumber -/

theorem scan_cons (e : Int) (ex : List Int) (start : Int) :
    scanExcluded (e :: ex) start =
      scanExcluded ex (if e ≤ start then start + 1 else start) := rfl

theorem scan_ge : ∀ (ex : List Int) (start : Int), start ≤ scanExcluded ex start := by
  intro ex
  induction ex with
  | nil => intro start; simp [scanExcluded]
  | cons e ex ih =>
    intro start
    rw [scan_cons]
    split
    · have := ih (start + 1); omega
    · exact ih start

theorem scan_le : ∀ (ex : List Int) (start : Int),
    scanExcluded ex start ≤ start + ex.length := by
  intro ex
  induction ex with
  | nil => intro start; simp [scanExcluded]
  | cons e ex ih =>
    intro start
    rw [scan_cons]
    simp only [List.length_cons]
    push_cast
    split
    · have := ih (start + 1); omega
    · have := ih start; omega

theorem scan_of_forall_gt : ∀ (ex : List Int) (start : Int),
    (∀ e ∈ ex, start < e) → scanExcluded ex start = start := by
  intro ex
  induction ex with
  | nil => intro start _; rfl
  | cons e ex ih =>
    intro start hgt
    rw [scan_cons, if_neg (by have := hgt e (by simp); omega)]
    exact ih start fun x hx => hgt x (by simp [hx])

theorem scan_not_mem : ∀ (ex : List Int) (start : Int),
    ex.Sorted (· < ·) → scanExcluded ex start ∉ ex := by
  intro ex
  induction ex with
  | nil => intro start _; simp
  | cons e ex ih =>
    intro start hs
    have hhead : ∀ b ∈ ex, e < b := (List.sorted_cons.1 hs).1
    have htail : ex.Sorted (· < ·) := (List.sorted_cons.1 hs).2
    by_cases he : e ≤ start
    · rw [scan_cons, if_pos he]
      have hne : scanExcluded ex (start + 1) ≠ e := by
        have := scan_ge ex (start + 1)
        omega
      simp only [List.mem_cons, not_or]
      exact ⟨hne, ih (start + 1) htail⟩
    · rw [scan_cons, if_neg he]
      rw [scan_of_forall_gt ex start (fun x hx => by have := hhead x hx; omega)]
      simp only [List.mem_cons, not_or]
      exact ⟨by omega, fun hmem => by have := hhead start hmem; omega⟩

theorem scan_count : ∀ (ex : List Int) (start : Int), ex.Sorted (· < ·) →
    scanExcluded ex start =
      start + ((ex.filter (fun e => decide (e ≤ scanExcluded ex start))).length : Int) := by
  intro ex
  induction ex with
  | nil => intro start _; simp [scanExcluded]
  | cons e ex ih =>
    intro start hs
    have hhead : ∀ b ∈ ex, e < b := (List.sorted_cons.1 hs).1
    have htail : ex.Sorted (· < ·) := (List.sorted_cons.1 hs).2
    by_cases he : e ≤ start
    · have hstep : scanExcluded (e :: ex) start = scanExcluded ex (start + 1) := by
        rw [scan_cons, if_pos he]
      rw [hstep]
      have hge := scan_ge ex (start + 1)
      rw [List.filter_cons_of_pos (by simp only [decide_eq_true_eq]; omega)]
      have := ih (start + 1) htail
      simp only [List.length_cons]
      push_cast
      omega
    · have hstep : scanExcluded (e :: ex) start = start := by
        rw [scan_cons, if_neg he]
        exact scan_of_forall_gt ex start (fun x hx => by have := hhead x hx; omega)
      rw [hstep]
      rw [List.filter_cons_of_neg (by simp only [decide_eq_true_eq]; omega)]
      rw [List.filter_eq_nil_iff.2 (fun x hx => by
        simp only [decide_eq_true_eq]
        have := hhead x hx
        omega)]
      simp

/-- In a strictly sorted list, the element `m` sits exactly at the index
counting the elements below it. -/
theorem sorted_getElem_of_count (m : Int) : ∀ (L : List Int), L.Sorted (· < ·) → m ∈ L →
    L[(L.filter (fun v => decide (v < m))).length]? = some m := by
  intro L
  induction L with
  | nil => intro _ h; cases h
  | cons a L ih =>
    intro hs hm
    have hhead : ∀ b ∈ L, a < b := (List.sorted_cons.1 hs).1
    have htail : L.Sorted (· < ·) := (List.sorted_cons.1 hs).2
    by_cases hma : m = a
    · subst hma
      rw [List.filter_cons_of_neg (by simp)]
      rw [List.filter_eq_nil_iff.2 (fun x hx => by
        simp only [decide_eq_true_eq]
        have := hhead x hx
        omega)]
      simp
    · have hm' : m ∈ L := by
        rcases List.mem_cons.1 hm with h | h
        · exact absurd h hma
        · exact h
      have ham : a < m := hhead m hm'
      rw [List.filter_cons_of_pos (by simp only [decide_eq_true_eq]; omega)]
      simp only [List.length_cons, List.getElem?_cons_succ]
      exact ih htail hm'

/-- Counting lemma: removing a duplicate-free set `S` of values inside
`[low, low + n)` from the range leaves `n - |S|` values. -/
theorem length_filter_not_mem :
    ∀ (n : Nat) (low : Int) (S : List Int), S.Nodup →
      (∀ e ∈ S, low ≤ e ∧ e < low + n) →
      ((intRange low n).filter (fun v => decide (v ∉ S))).length + S.length = n := by
  intro n
  induction n with
  | zero =>
    intro low S _ hb
    cases S with
    | nil => simp [intRange]
    | cons s S =>
      have := hb s (by simp)
      push_cast at this
      omega
  | succ n ih =>
    intro low S hnd hb
    rw [intRange]
    by_cases hlow : low ∈ S
    · rw [List.filter_cons_of_neg (by simp [hlow])]
      have hcongr : (intRange (low + 1) n).filter (fun v => decide (v ∉ S)) =
          (intRange (low + 1) n).filter (fun v => decide (v ∉ S.erase low)) := by
        apply List.filter_congr
        intro v hv
        have hv1 : low + 1 ≤ v := ((mem_intRange v n (low + 1)).1 hv).1
        have hvne : v ≠ low := by omega
        simp [List.Nodup.mem_erase_iff hnd, hvne]
      rw [hcongr]
      have herase := ih (low + 1) (S.erase low) (hnd.erase low) (by
        intro e he
        have hems := (List.Nodup.mem_erase_iff hnd).1 he
        have := hb e hems.2
        push_cast at *
        omega)
      have hlen : (S.erase low).length + 1 = S.length :=
        List.length_erase_add_one hlow
      omega
    · rw [List.filter_cons_of_pos (by simp [hlow])]
      have := ih (low + 1) S hnd (by
        intro e he
        have hbe := hb e he
        have : e ≠ low := fun h => hlow (h ▸ he)
        push_cast at *
        omega)
      simp only [List.length_cons]
      omega

/-- The number of valid values below the scan result is exactly the drawn
index `r`. -/
theorem validList_rank (low high r : Int) (ex : List Int)
    (hsort : ex.Sorted (· < ·))
    (hmem : ∀ e ∈ ex, low ≤ e ∧ e ≤ high)
    (hr0 : 0 ≤ r)
    (hrlt : r < high - low + 1 - ex.length) :
    ((validList low high ex).filter
      (fun v => decide (v < scanExcluded ex (low + r)))).length = r.toNat := by
  have hge := scan_ge ex (low + r)
  have hle := scan_le ex (low + r)
  have hcnt := scan_count ex (low + r) hsort
  have hnotmem := scan_not_mem ex (low + r) hsort
  have hnodup : ex.Nodup := hsort.nodup
  have hmlow : low ≤ scanExcluded ex (low + r) := by omega
  have hmhigh : scanExcluded ex (low + r) ≤ high := by omega
  have hNk : (high + 1 - low).toNat
      = (scanExcluded ex (low + r) - low).toNat
        + ((high + 1 - low).toNat - (scanExcluded ex (low + r) - low).toNat) := by
    omega
  have hS : ∀ e, e ∈ ex.filter (fun e => decide (e ≤ scanExcluded ex (low + r))) →
      low ≤ e ∧ e < scanExcluded ex (low + r) := by
    intro e he
    have hee := List.mem_filter.1 he
    have hle' : e ≤ scanExcluded ex (low + r) := by simpa using hee.2
    have hne : e ≠ scanExcluded ex (low + r) := fun h => hnotmem (h ▸ hee.1)
    exact ⟨(hmem e hee.1).1, by omega⟩
  have hR := length_filter_not_mem
    (scanExcluded ex (low + r) - low).toNat low
    (ex.filter (fun e => decide (e ≤ scanExcluded ex (low + r))))
    (hnodup.filter _)
    (by
      intro e he
      have := hS e he
      omega)
  have h2 : (intRange (low + ((scanExcluded ex (low + r) - low).toNat : Int))
        ((high + 1 - low).toNat - (scanExcluded ex (low + r) - low).toNat)).filter
        (fun v => decide (v < scanExcluded ex (low + r)) && decide (v ∉ ex)) = [] := by
    apply List.filter_eq_nil_iff.2
    intro v hv
    have := (mem_intRange v _ _).1 hv
    simp only [Bool.and_eq_true, decide_eq_true_eq]
    intro hcon
    exact absurd hcon.1 (by omega)
  have h1 : (intRange low (scanExcluded ex (low + r) - low).toNat).filter
        (fun v => decide (v < scanExcluded ex (low + r)) && decide (v ∉ ex)) =
      (intRange low (scanExcluded ex (low + r) - low).toNat).filter
        (fun v => decide (v ∉ ex.filter (fun e => decide (e ≤ scanExcluded ex (low + r))))) := by
    apply List.filter_congr
    intro v hv
    have hvb := (mem_intRange v _ _).1 hv
    have hvm : v < scanExcluded ex (low + r) := by omega
    by_cases hvex : v ∈ ex
    · have hvS : v ∈ ex.filter (fun e => decide (e ≤ scanExcluded ex (low + r))) :=
        List.mem_filter.2 ⟨hvex, by simp only [decide_eq_true_eq]; omega⟩
      simp [hvm, hvex, hvS]
    · have hvS : v ∉ ex.filter (fun e => decide (e ≤ scanExcluded ex (low + r))) :=
        fun h => hvex (List.mem_filter.1 h).1
      simp [hvm, hvex, hvS]
  rw [validList, List.filter_filter, hNk, intRange_append, List.filter_append,
    List.length_append, h1, h2, List.length_nil]
  omega

/-- C1.  For a valid generator state (sorted, duplicate-free, in-range
exclusion list) and any drawn index `r` in `[0, validCount)`,
`generateRandomNumber` succeeds (the trailing `InvalidRangeError` branch
is not taken) and returns the `(r+1)`-th smallest integer of
`[low, high]` not in `excluded` — i.e. entry `r` of the ascending
duplicate-free list `validList` of all non-excluded values.  So the
result is always in range and never excluded, and since `validList` has
exactly `validCount = (high - low + 1) - |excluded|` entries, the map
from the draw `r` to the result enumerates the non-excluded values
bijectively (exact uniformity over `validCount` values). -/
theorem spec_c1_generateRandomNumber_uniform
    (low high r : Int) (ex : List Int)
    (hsort : ex.Sorted (· < ·))
    (hmem : ∀ e ∈ ex, low ≤ e ∧ e ≤ high)
    (hr0 : 0 ≤ r)
    (hrlt : r < high - low + 1 - ex.length) :
    ExclusiveRng.generateRandomNumber ⟨low, high, ex⟩ r
        = .ok (scanExcluded ex (low + r)) ∧
    low ≤ scanExcluded ex (low + r) ∧
    scanExcluded ex (low + r) ≤ high ∧
    scanExcluded ex (low + r) ∉ ex ∧
    (validList low high ex)[r.toNat]? = some (scanExcluded ex (low + r)) ∧
    (validList low high ex).length + ex.length = (high - low + 1).toNat := by
  have hge := scan_ge ex (low + r)
  have hle := scan_le ex (low + r)
  have hnotmem := scan_not_mem ex (low + r) hsort
  have hnodup : ex.Nodup := hsort.nodup
  have hmlow : low ≤ scanExcluded ex (low + r) := by omega
  have hmhigh : scanExcluded ex (low + r) ≤ high := by omega
  have hok : ExclusiveRng.generateRandomNumber ⟨low, high, ex⟩ r
      = .ok (scanExcluded ex (low + r)) := by
    show (if high < scanExcluded ex (low + r) then
        (Except.error InvalidRangeError.invalidRange)
      else Except.ok (scanExcluded ex (low + r))) = _
    rw [if_neg (by omega)]
  have hvsorted : (validList low high ex).Sorted (· < ·) :=
    (sorted_intRange _ low).filter _
  have hmval : scanExcluded ex (low + r) ∈ validList low high ex := by
    apply List.mem_filter.2
    refine ⟨(mem_intRange _ _ _).2 ⟨hmlow, by omega⟩, by simpa using hnotmem⟩
  have hrank := validList_rank low high r ex hsort hmem hr0 hrlt
  have hget := sorted_getElem_of_count (scanExcluded ex (low + r))
    (validList low high ex) hvsorted hmval
  rw [hrank] at hget
  have hlenfull := length_filter_not_mem (high + 1 - low).toNat low ex hnodup
    (by
      intro e he
      have := hmem e he
      omega)
  refine ⟨hok, hmlow, hmhigh, hnotmem, hget, ?_⟩
  rw [validList]
  omega

/-- Witness for C1: range `[0, 4]`, excluded `[2]`, draw `r = 2` — the
generator returns `3`, the third valid value of `{0, 1, 3, 4}`. -/
theorem spec_c1_generateRandomNumber_uniform_witness :
    ExclusiveRng.generateRandomNumber ⟨0, 4, [2]⟩ 2 = .ok (scanExcluded [2] (0 + 2)) ∧
    0 ≤ scanExcluded [2] (0 + 2) ∧
    scanExcluded [2] (0 + 2) ≤ 4 ∧
    scanExcluded [2] (0 + 2) ∉ ([2] : List Int) ∧
    (validList 0 4 [2])[(2 : Int).toNat]? = some (scanExcluded [2] (0 + 2)) ∧
    (validList 0 4 [2]).length + ([2] : List Int).length = ((4 : Int) - 0 + 1).toNat :=
  spec_c1_generateRandomNumber_uniform 0 4 2 [2]
    (by decide) (by decide) (by decide) (by decide)

/-! ### Lemmas about the exclusion-list maintenance loops -/

theorem placeRev_perm (v : Int) : ∀ l : List Int, List.Perm (placeRev v l) (v :: l) := by
  intro l
  induction l with
  | nil => simp [placeRev]
  | cons x xs ih =>
    rw [placeRev]
    split
    · exact ((ih.cons x).trans (List.Perm.swap v x xs))
    · exact List.Perm.refl _

theorem placeRev_sorted_gt (v : Int) :
    ∀ l : List Int, l.Sorted (· > ·) → v ∉ l → (placeRev v l).Sorted (· > ·) := by
  intro l
  induction l with
  | nil => intro _ _; simp [placeRev]
  | cons x xs ih =>
    intro hs hv
    have hhead : ∀ b ∈ xs, b < x := (List.sorted_cons.1 hs).1
    have htail : xs.Sorted (· > ·) := (List.sorted_cons.1 hs).2
    have hvx : v ≠ x := fun h => hv (by simp [h])
    have hvxs : v ∉ xs := fun h => hv (by simp [h])
    rw [placeRev]
    split
    · rw [List.sorted_cons]
      refine ⟨?_, ih htail hvxs⟩
      intro b hb
      rcases List.mem_cons.1 (((placeRev_perm v xs).mem_iff).1 hb) with h | h
      · simp_all
      · exact hhead b h
    · rw [List.sorted_cons]
      refine ⟨?_, hs⟩
      intro b hb
      rcases List.mem_cons.1 hb with rfl | h
      · omega
      · have := hhead b h
        omega

theorem bubbleInsertEnd_perm (l : List Int) (v : Int) :
    List.Perm (bubbleInsertEnd l v) (v :: l) := by
  unfold bubbleInsertEnd
  refine (List.reverse_perm _).trans ?_
  refine (placeRev_perm v l.reverse).trans ?_
  exact (List.reverse_perm l).cons v

theorem bubbleInsertEnd_sorted (l : List Int) (v : Int)
    (hs : l.Sorted (· < ·)) (hv : v ∉ l) :
    (bubbleInsertEnd l v).Sorted (· < ·) := by
  unfold bubbleInsertEnd
  rw [List.Sorted, List.pairwise_reverse]
  apply placeRev_sorted_gt
  · rw [List.Sorted, List.pairwise_reverse]
    exact hs
  · simpa using hv

theorem bubbleGo_perm (c : Int) : ∀ l : List Int, List.Perm (bubbleGo c l) (c :: l) := by
  intro l
  induction l generalizing c with
  | nil => simp [bubbleGo]
  | cons y ys ih =>
    rw [bubbleGo]
    split
    · exact ((ih c).cons y).trans (List.Perm.swap c y ys)
    · exact (ih y).cons c

theorem bubbleGo_sorted (c : Int) :
    ∀ l : List Int, l.Sorted (· < ·) → c ∉ l → (bubbleGo c l).Sorted (· < ·) := by
  intro l
  induction l generalizing c with
  | nil => intro _ _; simp [bubbleGo]
  | cons y ys ih =>
    intro hs hc
    have hhead : ∀ b ∈ ys, y < b := (List.sorted_cons.1 hs).1
    have htail : ys.Sorted (· < ·) := (List.sorted_cons.1 hs).2
    have hcy : c ≠ y := fun h => hc (by simp [h])
    have hcys : c ∉ ys := fun h => hc (by simp [h])
    rw [bubbleGo]
    split
    · rw [List.sorted_cons]
      refine ⟨?_, ih c htail hcys⟩
      intro b hb
      rcases List.mem_cons.1 (((bubbleGo_perm c ys).mem_iff).1 hb) with h | h
      · omega
      · exact hhead b h
    · rw [List.sorted_cons]
      have hyys : y ∉ ys := fun h => absurd (hhead y h) (by omega)
      refine ⟨?_, ih y htail hyys⟩
      intro b hb
      rcases List.mem_cons.1 (((bubbleGo_perm y ys).mem_iff).1 hb) with rfl | h
      · omega
      · have := hhead b h
        omega

theorem bubblePass_cons_perm (v : Int) (l : List Int) :
    List.Perm (bubblePass (v :: l)) (v :: l) := by
  rw [bubblePass]
  exact bubbleGo_perm v l

theorem bubblePass_cons_sorted (v : Int) (l : List Int)
    (hs : l.Sorted (· < ·)) (hv : v ∉ l) :
    (bubblePass (v :: l)).Sorted (· < ·) := by
  rw [bubblePass]
  exact bubbleGo_sorted v l hs hv

theorem removeLastOcc_sublist (l : List Int) (a : Int) :
    List.Sublist (removeLastOcc l a) l := by
  unfold removeLastOcc
  have h1 : List.Sublist (l.reverse.erase a) l.reverse := List.erase_sublist a l.reverse
  simpa using h1.reverse

theorem mem_removeLastOcc (l : List Int) (a x : Int) (hnd : l.Nodup) :
    x ∈ removeLastOcc l a ↔ x ∈ l ∧ x ≠ a := by
  unfold removeLastOcc
  rw [List.mem_reverse, (List.nodup_reverse.2 hnd).mem_erase_iff, List.mem_reverse]
  tauto

/-! ### Characterizations of the ExclusiveRng operations -/

theorem addExcluded_error_iff (g : ExclusiveRng) (v : Int) :
    g.addExcluded v = .error .invalidRange ↔
      ¬(g.low ≤ v ∧ v ≤ g.high) ∨ v ∈ g.excluded := by
  unfold ExclusiveRng.addExcluded
  split
  · simp_all
  · simp_all

theorem addExcluded_ok (g : ExclusiveRng) (v : Int) (g' : ExclusiveRng)
    (h : g.addExcluded v = .ok g') :
    g'.low = g.low ∧ g'.high = g.high ∧
    g'.excluded = bubbleInsertEnd g.excluded v ∧
    (g.low ≤ v ∧ v ≤ g.high) ∧ v ∉ g.excluded := by
  unfold ExclusiveRng.addExcluded at h
  split at h
  · cases h
  · rename_i hcond
    cases h
    push_neg at hcond
    exact ⟨rfl, rfl, rfl, hcond.1, hcond.2⟩

/-- A successful `addExcluded` on a sorted duplicate-free list keeps it
sorted and adds exactly the new value. -/
theorem addExcluded_sorted_spec (g : ExclusiveRng) (v : Int) (g' : ExclusiveRng)
    (hsort : g.excluded.Sorted (· < ·))
    (h : g.addExcluded v = .ok g') :
    g'.excluded.Sorted (· < ·) ∧
    (∀ x, x ∈ g'.excluded ↔ x ∈ g.excluded ∨ x = v) := by
  obtain ⟨-, -, hex, -, hnotmem⟩ := addExcluded_ok g v g' h
  rw [hex]
  refine ⟨bubbleInsertEnd_sorted _ _ hsort hnotmem, ?_⟩
  intro x
  rw [(bubbleInsertEnd_perm g.excluded v).mem_iff, List.mem_cons]
  tauto

theorem updateExcluded_error_iff (g : ExclusiveRng) (oldE newE : Int) :
    g.updateExcluded oldE newE = .error .invalidRange ↔
      ¬(g.low ≤ newE ∧ newE ≤ g.high) ∨ newE ∈ g.excluded ∨ oldE ∉ g.excluded := by
  unfold ExclusiveRng.updateExcluded
  split
  · simp_all
  · split
    · simp_all
    · split
      · simp_all
      · simp_all

theorem updateExcluded_ok (g : ExclusiveRng) (oldE newE : Int) (g' : ExclusiveRng)
    (h : g.updateExcluded oldE newE = .ok g') :
    g'.low = g.low ∧ g'.high = g.high ∧
    g'.excluded = bubblePass (newE :: removeLastOcc g.excluded oldE) ∧
    (g.low ≤ newE ∧ newE ≤ g.high) ∧ newE ∉ g.excluded ∧ oldE ∈ g.excluded := by
  unfold ExclusiveRng.updateExcluded at h
  split at h
  · cases h
  · rename_i h1
    split at h
    · cases h
    · rename_i h2
      split at h
      · cases h
      · rename_i h3
        cases h
        push_neg at h1 h3
        exact ⟨rfl, rfl, rfl, h1, h2, h3⟩

/-- A successful `updateExcluded` on a sorted duplicate-free list keeps it
sorted and replaces exactly the old value by the new one. -/
theorem updateExcluded_sorted_spec (g : ExclusiveRng) (oldE newE : Int) (g' : ExclusiveRng)
    (hsort : g.excluded.Sorted (· < ·))
    (h : g.updateExcluded oldE newE = .ok g') :
    g'.excluded.Sorted (· < ·) ∧
    (∀ x, x ∈ g'.excluded ↔ (x ∈ g.excluded ∧ x ≠ oldE) ∨ x = newE) := by
  obtain ⟨-, -, hex, -, hnotmem, hold⟩ := updateExcluded_ok g oldE newE g' h
  have hnodup : g.excluded.Nodup := hsort.nodup
  have hsub := removeLastOcc_sublist g.excluded oldE
  have hsorted1 : (removeLastOcc g.excluded oldE).Sorted (· < ·) := hsort.sublist hsub
  have hnew1 : newE ∉ removeLastOcc g.excluded oldE :=
    fun hmem => hnotmem (hsub.mem hmem)
  rw [hex]
  refine ⟨bubblePass_cons_sorted _ _ hsorted1 hnew1, ?_⟩
  intro x
  rw [(bubblePass_cons_perm newE _).mem_iff, List.mem_cons,
    mem_removeLastOcc g.excluded oldE x hnodup]
  tauto

/-! ### Claim C3: addExcluded / updateExcluded -/

/-- Counterexample to C3 as stated: the claim quantifies over every state
whose exclusion list is merely sorted, which admits duplicates (and such
states are constructible, cf. C10).  On `excluded = [2, 2]`,
`updateExcluded 2 3` succeeds but removes only one copy of `2`, so the
resulting value set is `{2, 3}`, not the claimed
`({2} \\ {2}) ∪ {3} = {3}`. -/
theorem spec_c3_counterexample :
    (ExclusiveRng.mk 0 9 [2, 2]).excluded.Sorted (· ≤ ·) ∧
    ExclusiveRng.updateExcluded ⟨0, 9, [2, 2]⟩ 2 3 = .ok ⟨0, 9, [2, 3]⟩ ∧
    (2 : Int) ∈ (ExclusiveRng.mk 0 9 [2, 3]).excluded ∧
    ¬(((2 : Int) ∈ (ExclusiveRng.mk 0 9 [2, 2]).excluded ∧ (2 : Int) ≠ 2) ∨ (2 : Int) = 3) := by
  refine ⟨by decide, rfl, by decide, by decide⟩

/-- C3 (amended: the exclusion list is additionally duplicate-free, i.e.
strictly sorted — the state the generator actually maintains).
`addExcluded v` errors exactly when `v` is out of range or already
present, and otherwise leaves a sorted list whose values are the old ones
plus `v`; `updateExcluded old new` errors exactly when `new` is out of
range, `new` is already present, or `old` is absent, and otherwise leaves
a sorted list whose values are the old ones minus `old` plus `new`.
Every error is atomic: in the source all throws precede the first list
mutation, which the embedding mirrors by producing the error before any
list is built. -/
theorem spec_c3_addExcluded_updateExcluded (g : ExclusiveRng) (v oldE newE : Int)
    (hsort : g.excluded.Sorted (· < ·)) :
    (g.addExcluded v = .error .invalidRange ↔
      ¬(g.low ≤ v ∧ v ≤ g.high) ∨ v ∈ g.excluded) ∧
    (∀ g', g.addExcluded v = .ok g' →
      g'.low = g.low ∧ g'.high = g.high ∧ g'.excluded.Sorted (· < ·) ∧
      ∀ x, x ∈ g'.excluded ↔ x ∈ g.excluded ∨ x = v) ∧
    (g.updateExcluded oldE newE = .error .invalidRange ↔
      ¬(g.low ≤ newE ∧ newE ≤ g.high) ∨ newE ∈ g.excluded ∨ oldE ∉ g.excluded) ∧
    (∀ g', g.updateExcluded oldE newE = .ok g' →
      g'.low = g.low ∧ g'.high = g.high ∧ g'.excluded.Sorted (· < ·) ∧
      ∀ x, x ∈ g'.excluded ↔ (x ∈ g.excluded ∧ x ≠ oldE) ∨ x = newE) := by
  refine ⟨addExcluded_error_iff g v, ?_, updateExcluded_error_iff g oldE newE, ?_⟩
  · intro g' h
    obtain ⟨hlow, hhigh, -, -, -⟩ := addExcluded_ok g v g' h
    obtain ⟨hsorted, hmem⟩ := addExcluded_sorted_spec g v g' hsort h
    exact ⟨hlow, hhigh, hsorted, hmem⟩
  · intro g' h
    obtain ⟨hlow, hhigh, -, -, -, -⟩ := updateExcluded_ok g oldE newE g' h
    obtain ⟨hsorted, hmem⟩ := updateExcluded_sorted_spec g oldE newE g' hsort h
    exact ⟨hlow, hhigh, hsorted, hmem⟩

/-- Witness for C3 on the state `low = 0, high = 9, excluded = [2, 5]`:
adding `3` is not an error, and updating `5 → 7` succeeds with the
expected value set. -/
theorem spec_c3_addExcluded_updateExcluded_witness :
    (ExclusiveRng.addExcluded ⟨0, 9, [2, 5]⟩ 3 = .error .invalidRange ↔
      ¬((0 : Int) ≤ 3 ∧ (3 : Int) ≤ 9) ∨ (3 : Int) ∈ [(2 : Int), 5]) ∧
    (ExclusiveRng.updateExcluded ⟨0, 9, [2, 5]⟩ 5 7 = .error .invalidRange ↔
      ¬((0 : Int) ≤ 7 ∧ (7 : Int) ≤ 9) ∨ (7 : Int) ∈ [(2 : Int), 5] ∨
        (5 : Int) ∉ [(2 : Int), 5]) :=
  ⟨(spec_c3_addExcluded_updateExcluded ⟨0, 9, [2, 5]⟩ 3 5 7 (by decide)).1,
   (spec_c3_addExcluded_updateExcluded ⟨0, 9, [2, 5]⟩ 3 5 7 (by decide)).2.2.1⟩

/-! ### Claim C10: the constructor -/

/-- C10.  The `ExclusiveRng` constructor throws exactly when `low > high`
or some initial excluded element is out of `[low, high]`; in particular a
duplicated in-range element is accepted, even though the resulting
`excluded.length` then overcounts the distinct exclusions, making the
`validCount` of `generateRandomNumber` undercount the remaining valid
values (the last conjunct: the computed count `4` is smaller than the
`5` actually-valid values of `[0, 5]` with `2` excluded twice). -/
theorem spec_c10_constructor_range_check :
    (∀ (low high : Int) (excluded : List Int),
      mkExclusiveRng low high excluded = .error .invalidRange ↔
        ¬(low ≤ high) ∨ ∃ e ∈ excluded, ¬(low ≤ e ∧ e ≤ high)) ∧
    mkExclusiveRng 0 5 [2, 2] = .ok ⟨0, 5, [2, 2]⟩ ∧
    ((5 : Int) - 0 + 1 - (ExclusiveRng.mk 0 5 [2, 2]).excluded.length).toNat
      < (validList 0 5 (ExclusiveRng.mk 0 5 [2, 2]).excluded).length := by
  refine ⟨?_, rfl, by decide⟩
  intro low high excluded
  unfold mkExclusiveRng
  split
  · simp_all
  · simp_all

/-- Witness for C10: a reversed range is rejected. -/
theorem spec_c10_constructor_range_check_witness :
    mkExclusiveRng 5 3 [] = .error .invalidRange :=
  (spec_c10_constructor_range_check.1 5 3 []).mpr (Or.inl (by decide))

/-- C9.  The `opposite` function on the six-valued `Direction` type,
implemented as arithmetic negation of the enum value, is total (the
negated value decodes to a direction again, namely `opposite d`), an
involution, fixed-point free, and injective. -/
theorem spec_c9_opposite_involution :
    (∀ d : Direction, Direction.ofValue? (-d.value) = some d.opposite) ∧
    (∀ d : Direction, d.opposite.opposite = d) ∧
    (∀ d : Direction, d.opposite ≠ d) ∧
    (∀ a b : Direction, a.opposite = b.opposite → a = b) := by
  decide

/-- Witness for C9 at concrete directions. -/
theorem spec_c9_opposite_involution_witness :
    Direction.xPos.opposite.opposite = Direction.xPos ∧ Direction.yNeg = Direction.yNeg :=
  ⟨spec_c9_opposite_involution.2.1 Direction.xPos,
   spec_c9_opposite_involution.2.2.2 Direction.yNeg Direction.yNeg (by decide)⟩

/-! ### Claim C7: tryToSetDirection -/

/-- C7.  `tryToSetDirection d` rotates (and sets the per-tick lock) iff
`d` is not the opposite of the current orientation and the lock is clear;
in every other case the snake is unchanged (a silent no-op — the function
is total and never errors).  Consequently two rotation requests between
moves apply only the first accepted one. -/
theorem spec_c7_tryToSetDirection :
    (∀ (s : Snake) (d : Direction),
      (d ≠ s.orientation.opposite → s.hasRotatedSinceLastMove = false →
        s.tryToSetDirection d =
          { s with orientation := d, hasRotatedSinceLastMove := true }) ∧
      (d = s.orientation.opposite ∨ s.hasRotatedSinceLastMove = true →
        s.tryToSetDirection d = s)) ∧
    (∀ (s : Snake) (d1 d2 : Direction),
      s.hasRotatedSinceLastMove = false → d1 ≠ s.orientation.opposite →
        ((s.tryToSetDirection d1).tryToSetDirection d2).orientation = d1) := by
  have hcond : ∀ (s : Snake) (d : Direction),
      (d.value ≠ -s.orientation.value ∧ s.hasRotatedSinceLastMove = false) ↔
      (d ≠ s.orientation.opposite ∧ s.hasRotatedSinceLastMove = false) := by
    intro s d
    rw [ne_eq, Direction.value_eq_neg_iff]
  constructor
  · intro s d
    constructor
    · intro hne hlock
      unfold Snake.tryToSetDirection
      rw [if_pos ((hcond s d).mpr ⟨hne, hlock⟩)]
    · intro h
      unfold Snake.tryToSetDirection
      rw [if_neg]
      intro hc
      rcases (hcond s d).mp hc with ⟨hne, hlock⟩
      rcases h with h | h
      · exact hne h
      · rw [h] at hlock; cases hlock
  · intro s d1 d2 hlock hne
    have h1 : s.tryToSetDirection d1 =
        { s with orientation := d1, hasRotatedSinceLastMove := true } := by
      unfold Snake.tryToSetDirection
      rw [if_pos ((hcond s d1).mpr ⟨hne, hlock⟩)]
    rw [h1]
    unfold Snake.tryToSetDirection
    rw [if_neg]
    intro hc
    exact absurd hc.2 (by simp)

/-- Witness for C7: a fresh snake facing `+X` accepts `+Y`, then ignores a
second request `+Z` in the same tick. -/
theorem spec_c7_tryToSetDirection_witness :
    ((Snake.mk [⟨0, 0, 0⟩] Direction.xPos false).tryToSetDirection Direction.yPos =
      Snake.mk [⟨0, 0, 0⟩] Direction.yPos true) ∧
    (((Snake.mk [⟨0, 0, 0⟩] Direction.xPos false).tryToSetDirection
        Direction.yPos).tryToSetDirection Direction.zPos).orientation = Direction.yPos :=
  ⟨(spec_c7_tryToSetDirection.1 (Snake.mk [⟨0, 0, 0⟩] Direction.xPos false)
      Direction.yPos).1 (by decide) rfl,
   spec_c7_tryToSetDirection.2 (Snake.mk [⟨0, 0, 0⟩] Direction.xPos false)
      Direction.yPos Direction.zPos rfl (by decide)⟩

/-! ### The flat-index bijection of the position generator -/

/-- A cell inside the play box: all coordinates in
`[-halfEdge, halfEdge]`. -/
def inBox (p : Position) : Prop :=
  -halfEdge ≤ p.x ∧ p.x ≤ halfEdge ∧
  -halfEdge ≤ p.y ∧ p.y ≤ halfEdge ∧
  -halfEdge ≤ p.z ∧ p.z ≤ halfEdge

instance (p : Position) : Decidable (inBox p) := by
  unfold inBox
  infer_instance

theorem posToFlat_flatToPos (m : Int) : posToFlat (flatToPos m) = m := by
  simp only [posToFlat, flatToPos, GAME_BOX_SIDE, halfEdge]
  omega

theorem flatToPos_posToFlat (p : Position) (h : inBox p) : flatToPos (posToFlat p) = p := by
  obtain ⟨x, y, z⟩ := p
  simp only [inBox, posToFlat, flatToPos, GAME_BOX_SIDE, halfEdge, Position.mk.injEq] at *
  refine ⟨?_, ?_, ?_⟩ <;> omega

theorem posToFlat_bounds (p : Position) (h : inBox p) :
    0 ≤ posToFlat p ∧ posToFlat p ≤ BOX_HIGH := by
  simp only [inBox, posToFlat, BOX_HIGH, GAME_BOX_SIDE, halfEdge] at *
  omega

theorem flatToPos_inBox (m : Int) (h0 : 0 ≤ m) (h1 : m ≤ BOX_HIGH) :
    inBox (flatToPos m) := by
  simp only [inBox, flatToPos, BOX_HIGH, GAME_BOX_SIDE, halfEdge] at *
  omega

theorem posToFlat_inj (p q : Position) (hp : inBox p) (hq : inBox q)
    (h : posToFlat p = posToFlat q) : p = q := by
  have := flatToPos_posToFlat p hp
  have := flatToPos_posToFlat q hq
  rw [← flatToPos_posToFlat p hp, ← flatToPos_posToFlat q hq, h]

/-! ### The game-state invariant -/

/-- The inductive invariant of a reachable `GameState`: the generator
covers the flat range of the play box with a sorted duplicate-free
exclusion list, the snake body is nonempty, the occupied cells are
pairwise distinct and inside the box, and the exclusion set is exactly
the flat image of the occupied cells. -/
structure GameInv (gs : GameState) : Prop where
  low_eq : gs.rng.rng.low = 0
  high_eq : gs.rng.rng.high = BOX_HIGH
  sorted : gs.rng.rng.excluded.Sorted (· < ·)
  body_ne : gs.snake.body ≠ []
  occ_nodup : (occupiedCells gs).Nodup
  occ_inbox : ∀ p ∈ occupiedCells gs, inBox p
  excl_iff : ∀ v, v ∈ gs.rng.rng.excluded ↔ ∃ p ∈ occupiedCells gs, posToFlat p = v

/-- The consistency property of claim C2, both directions: every occupied
cell is excluded and every excluded value is the flat index of an
occupied cell. -/
def OccuConsistent (gs : GameState) : Prop :=
  (∀ p ∈ occupiedCells gs, posToFlat p ∈ gs.rng.rng.excluded) ∧
  (∀ v ∈ gs.rng.rng.excluded, ∃ p ∈ occupiedCells gs, posToFlat p = v)

theorem GameInv.occuConsistent {gs : GameState} (h : GameInv gs) : OccuConsistent gs := by
  constructor
  · intro p hp
    exact (h.excl_iff (posToFlat p)).2 ⟨p, hp, rfl⟩
  · intro v hv
    exact (h.excl_iff v).1 hv

/-! ### Elimination lemmas for the generator operations -/

theorem addOcuppated_ok_elim (g : ExclusiveRandomPositionGenerator) (p : Position)
    (g1 : ExclusiveRandomPositionGenerator) (h : g.addOcuppated p = .ok g1) :
    g.rng.addExcluded (posToFlat p) = .ok g1.rng := by
  unfold ExclusiveRandomPositionGenerator.addOcuppated at h
  split at h
  · cases h
  · rename_i rng1 heq
    cases h
    exact heq

theorem updateOccupated_ok_elim (g : ExclusiveRandomPositionGenerator) (oldP newP : Position)
    (g1 : ExclusiveRandomPositionGenerator) (h : g.updateOccupated oldP newP = .ok g1) :
    g.rng.updateExcluded (posToFlat oldP) (posToFlat newP) = .ok g1.rng := by
  unfold ExclusiveRandomPositionGenerator.updateOccupated at h
  split at h
  · cases h
  · rename_i rng1 heq
    cases h
    exact heq

theorem generate_ok_elim (g : ExclusiveRandomPositionGenerator) (r : Int) (pos : Position)
    (h : g.generate r = .ok pos) :
    ∃ m, g.rng.generateRandomNumber r = .ok m ∧ pos = flatToPos m := by
  unfold ExclusiveRandomPositionGenerator.generate at h
  split at h
  · cases h
  · rename_i m heq
    cases h
    exact ⟨m, heq, rfl⟩

theorem generateRandomNumber_ok_elim (g : ExclusiveRng) (r m : Int)
    (h : g.generateRandomNumber r = .ok m) :
    m = scanExcluded g.excluded (g.low + r) ∧ m ≤ g.high := by
  simp only [ExclusiveRng.generateRandomNumber] at h
  split at h
  · cases h
  · rename_i hlt
    cases h
    exact ⟨rfl, by omega⟩

/-- A successful sample on a well-formed box generator yields a fresh
in-box cell. -/
theorem generate_ok_facts (g : ExclusiveRandomPositionGenerator) (r : Int) (pos : Position)
    (hr : 0 ≤ r)
    (hlow : g.rng.low = 0) (hhigh : g.rng.high = BOX_HIGH)
    (hsort : g.rng.excluded.Sorted (· < ·))
    (h : g.generate r = .ok pos) :
    inBox pos ∧ posToFlat pos ∉ g.rng.excluded ∧
    0 ≤ posToFlat pos ∧ posToFlat pos ≤ BOX_HIGH := by
  obtain ⟨m, hm, rfl⟩ := generate_ok_elim g r pos h
  obtain ⟨hscan, hle⟩ := generateRandomNumber_ok_elim g.rng r m hm
  have hge := scan_ge g.rng.excluded (g.rng.low + r)
  have hm0 : 0 ≤ m := by omega
  have hmh : m ≤ BOX_HIGH := by omega
  have hflat : posToFlat (flatToPos m) = m := posToFlat_flatToPos m
  refine ⟨flatToPos_inBox m hm0 hmh, ?_, by omega, by omega⟩
  rw [hflat, hscan]
  exact scan_not_mem _ _ hsort

/-! ### Elimination lemmas for findIdx? -/

theorem findIdx?_some_facts (p : Food → Bool) :
    ∀ (l : List Food) (j i : Nat), List.findIdx? p l j = some i →
      j ≤ i ∧ ∃ h : i - j < l.length, p (l.get ⟨i - j, h⟩) = true := by
  intro l
  induction l with
  | nil => intro j i h; simp [List.findIdx?] at h
  | cons x xs ih =>
    intro j i h
    rw [List.findIdx?_cons] at h
    split at h
    · rename_i hpx
      cases h
      simp only [Nat.sub_self]
      exact ⟨Nat.le_refl _, ⟨by simp, by simpa using hpx⟩⟩
    · obtain ⟨hji, hlt, hp⟩ := ih (j + 1) i h
      refine ⟨by omega, ?_⟩
      have hij : i - j = (i - (j + 1)) + 1 := by omega
      rw [hij]
      refine ⟨by simpa using Nat.succ_lt_succ hlt, ?_⟩
      simpa using hp

theorem indexOfFoodToBeEaten_some (gs : GameState) (i : Nat)
    (h : gs.indexOfFoodToBeEaten = some i) :
    ∃ hlen : i < gs.foods.length,
      gs.snake.targetBlock = (gs.foods.get ⟨i, hlen⟩).location := by
  unfold GameState.indexOfFoodToBeEaten at h
  obtain ⟨-, hlt, hp⟩ := findIdx?_some_facts _ gs.foods 0 i h
  simp only [Nat.sub_zero] at hlt hp
  refine ⟨hlt, ?_⟩
  simpa [Snake.willEatFoodNext] using hp

theorem indexOfFoodToBeEaten_none (gs : GameState)
    (h : gs.indexOfFoodToBeEaten = none) :
    ∀ f ∈ gs.foods, gs.snake.targetBlock ≠ f.location := by
  unfold GameState.indexOfFoodToBeEaten at h
  intro f hf
  have := List.findIdx?_eq_none_iff.1 h f hf
  simpa [Snake.willEatFoodNext] using this

/-! ### Structure of finishTick, the moves, and goToNextState -/

theorem finishTick_eq (gs : GameState) (evs : List Event) :
    finishTick gs evs =
      ({ gs with gameover := gs.gameover || gs.isNowGameOver }, evs,
        if gs.isNowGameOver then some gs.points else none) := by
  unfold finishTick
  split
  · rename_i h
    simp [h]
  · rename_i h
    simp only [Bool.not_eq_true] at h
    simp [h]

theorem moveAndNotGrow_parts (s : Snake) (g : ExclusiveRandomPositionGenerator) :
    (s.moveAndNotGrow g).1 =
      { s with body := s.targetBlock :: s.body.dropLast, hasRotatedSinceLastMove := false } ∧
    (s.moveAndNotGrow g).2.1 =
      [Event.snakeLeft (s.body.getLastD default), Event.snakeEntered s.targetBlock] ∧
    ((s.moveAndNotGrow g).1.isHeadOutOfGameBounds = false ∧
      (s.moveAndNotGrow g).1.isHeadCrossingBody = false →
      (s.moveAndNotGrow g).2.2 = g.updateOccupated (s.body.getLastD default) s.targetBlock) ∧
    ((s.moveAndNotGrow g).1.isHeadOutOfGameBounds = true ∨
      (s.moveAndNotGrow g).1.isHeadCrossingBody = true →
      (s.moveAndNotGrow g).2.2 = .ok g) := by
  simp only [Snake.moveAndNotGrow]
  split
  · rename_i hcond
    rw [Bool.and_eq_true, Bool.not_eq_true', Bool.not_eq_true'] at hcond
    refine ⟨rfl, rfl, fun _ => rfl, fun hcon => ?_⟩
    rcases hcon with hcon | hcon <;> simp_all
  · rename_i hcond
    rw [Bool.and_eq_true, Bool.not_eq_true', Bool.not_eq_true'] at hcond
    push_neg at hcond
    refine ⟨rfl, rfl, fun hok => ?_, fun _ => rfl⟩
    exact absurd hok.2 (hcond hok.1)

theorem moveAndGrow_parts (s : Snake) :
    (s.moveAndGrow).1 = { s with body := s.targetBlock :: s.body, hasRotatedSinceLastMove := false } ∧
    (s.moveAndGrow).2 = [Event.snakeEntered s.targetBlock] :=
  ⟨rfl, rfl⟩

theorem goToNextState_none_elim (gs : GameState) (draw : Nat)
    (gs' : GameState) (evs : List Event) (pend : Option Int)
    (hidx : gs.indexOfFoodToBeEaten = none)
    (h : gs.goToNextState draw = .ok (gs', evs, pend)) :
    ∃ rng1, (gs.snake.moveAndNotGrow gs.rng).2.2 = .ok rng1 ∧
      (gs', evs, pend) = finishTick
        { gs with snake := (gs.snake.moveAndNotGrow gs.rng).1, rng := rng1 }
        (gs.snake.moveAndNotGrow gs.rng).2.1 := by
  simp only [GameState.goToNextState] at h
  split at h
  · rename_i heq
    split at h
    · cases h
    · rename_i rng1 heq2
      injection h with h'
      exact ⟨rng1, heq2, h'.symm⟩
  · rename_i i0 heq
    rw [hidx] at heq
    cases heq

theorem goToNextState_some_elim (gs : GameState) (draw : Nat) (i : Nat)
    (gs' : GameState) (evs : List Event) (pend : Option Int)
    (hidx : gs.indexOfFoodToBeEaten = some i)
    (h : gs.goToNextState draw = .ok (gs', evs, pend)) :
    ∃ gs1 evs1, gs.replaceFood (some i) draw = .ok (gs1, evs1) ∧
      (gs', evs, pend) = finishTick
        { gs1 with snake := (gs1.snake.moveAndGrow).1, points := gs1.points + 1 }
        (evs1 ++ (gs1.snake.moveAndGrow).2 ++ [Event.pointsChanged (gs1.points + 1)]) := by
  simp only [GameState.goToNextState] at h
  split at h
  · rename_i heq
    rw [hidx] at heq
    cases heq
  · rename_i i0 heq
    rw [hidx] at heq
    injection heq with heq
    subst heq
    split at h
    · cases h
    · rename_i gs1 evs1 heq2
      injection h with h'
      exact ⟨gs1, evs1, heq2, h'.symm⟩

theorem replaceFood_none_elim (gs : GameState) (draw : Nat)
    (gs1 : GameState) (evs1 : List Event)
    (h : gs.replaceFood none draw = .ok (gs1, evs1)) :
    ∃ pos rng1, gs.rng.generate draw = .ok pos ∧ gs.rng.addOcuppated pos = .ok rng1 ∧
      gs1 = { gs with rng := rng1, foods := gs.foods ++ [⟨pos⟩] } ∧
      evs1 = [Event.foodEntered pos] := by
  simp only [GameState.replaceFood] at h
  split at h
  · cases h
  · rename_i pos hg
    split at h
    · cases h
    · rename_i rng1 ha
      injection h with h'
      refine ⟨pos, rng1, hg, ha, ?_, ?_⟩
      · exact (congrArg Prod.fst h').symm
      · exact (congrArg Prod.snd h').symm

theorem replaceFood_some_elim (gs : GameState) (i : Nat) (draw : Nat)
    (gs1 : GameState) (evs1 : List Event)
    (h : gs.replaceFood (some i) draw = .ok (gs1, evs1)) :
    ∃ pos rng1, gs.rng.generate draw = .ok pos ∧ gs.rng.addOcuppated pos = .ok rng1 ∧
      gs1 = { gs with rng := rng1, foods := gs.foods.set i ⟨pos⟩ } ∧
      evs1 = [Event.foodLeft (gs.foods.getD i default).location, Event.foodEntered pos] := by
  simp only [GameState.replaceFood] at h
  split at h
  · cases h
  · rename_i pos hg
    split at h
    · cases h
    · rename_i rng1 ha
      injection h with h'
      refine ⟨pos, rng1, hg, ha, ?_, ?_⟩
      · exact (congrArg Prod.fst h').symm
      · exact (congrArg Prod.snd h').symm

/-! ### Permutation helpers for replacing one food item -/

theorem set_perm_cons_eraseIdx :
    ∀ (l : List Food) (i : Nat), i < l.length → ∀ f : Food,
      List.Perm (l.set i f) (f :: l.eraseIdx i) := by
  intro l
  induction l with
  | nil => intro i hi; simp at hi
  | cons a l ih =>
    intro i hi f
    cases i with
    | zero => simp
    | succ i =>
      simp only [List.set_cons_succ, List.eraseIdx_cons_succ]
      have hi' : i < l.length := by simpa using hi
      exact ((ih i hi' f).cons a).trans (List.Perm.swap f a (l.eraseIdx i))

theorem perm_get_cons_eraseIdx :
    ∀ (l : List Food) (i : Nat) (hi : i < l.length),
      List.Perm l (l.get ⟨i, hi⟩ :: l.eraseIdx i) := by
  intro l
  induction l with
  | nil => intro i hi; simp at hi
  | cons a l ih =>
    intro i hi
    cases i with
    | zero => simp
    | succ i =>
      have hi' : i < l.length := by simpa using hi
      simp only [List.get_cons_succ, List.eraseIdx_cons_succ]
      exact ((ih i hi').cons a).trans (List.Perm.swap _ a (l.eraseIdx i))

/-! ### Field-level views of a successful tick -/

theorem goToNextState_none_fields (gs : GameState) (draw : Nat)
    (gs' : GameState) (evs : List Event) (pend : Option Int)
    (hidx : gs.indexOfFoodToBeEaten = none)
    (h : gs.goToNextState draw = .ok (gs', evs, pend)) :
    ∃ rng1, (gs.snake.moveAndNotGrow gs.rng).2.2 = .ok rng1 ∧
      gs'.snake = (gs.snake.moveAndNotGrow gs.rng).1 ∧
      gs'.foods = gs.foods ∧
      gs'.points = gs.points ∧
      gs'.rng = rng1 ∧
      gs'.gameover = (gs.gameover ||
        ((gs.snake.moveAndNotGrow gs.rng).1.isHeadCrossingBody ||
          (gs.snake.moveAndNotGrow gs.rng).1.isHeadOutOfGameBounds)) ∧
      evs = (gs.snake.moveAndNotGrow gs.rng).2.1 ∧
      pend = (if ((gs.snake.moveAndNotGrow gs.rng).1.isHeadCrossingBody ||
          (gs.snake.moveAndNotGrow gs.rng).1.isHeadOutOfGameBounds) = true
        then some gs.points else none) := by
  obtain ⟨rng1, hok, heq⟩ := goToNextState_none_elim gs draw gs' evs pend hidx h
  rw [finishTick_eq] at heq
  refine ⟨rng1, hok, ?_, ?_, ?_, ?_, ?_, ?_, ?_⟩
  · exact congrArg (fun t => t.1.snake) heq
  · exact congrArg (fun t => t.1.foods) heq
  · exact congrArg (fun t => t.1.points) heq
  · exact congrArg (fun t => t.1.rng) heq
  · exact congrArg (fun t => t.1.gameover) heq
  · exact congrArg (fun t => t.2.1) heq
  · exact congrArg (fun t => t.2.2) heq

theorem goToNextState_some_fields (gs : GameState) (draw : Nat) (i : Nat)
    (gs' : GameState) (evs : List Event) (pend : Option Int)
    (hidx : gs.indexOfFoodToBeEaten = some i)
    (h : gs.goToNextState draw = .ok (gs', evs, pend)) :
    ∃ gs1 evs1, gs.replaceFood (some i) draw = .ok (gs1, evs1) ∧
      gs'.snake = (gs1.snake.moveAndGrow).1 ∧
      gs'.foods = gs1.foods ∧
      gs'.points = gs1.points + 1 ∧
      gs'.rng = gs1.rng ∧
      gs'.gameover = (gs1.gameover ||
        ((gs1.snake.moveAndGrow).1.isHeadCrossingBody ||
          (gs1.snake.moveAndGrow).1.isHeadOutOfGameBounds)) ∧
      evs = evs1 ++ (gs1.snake.moveAndGrow).2 ++ [Event.pointsChanged (gs1.points + 1)] ∧
      pend = (if ((gs1.snake.moveAndGrow).1.isHeadCrossingBody ||
          (gs1.snake.moveAndGrow).1.isHeadOutOfGameBounds) = true
        then some (gs1.points + 1) else none) := by
  obtain ⟨gs1, evs1, hrf, heq⟩ := goToNextState_some_elim gs draw i gs' evs pend hidx h
  rw [finishTick_eq] at heq
  refine ⟨gs1, evs1, hrf, ?_, ?_, ?_, ?_, ?_, ?_, ?_⟩
  · exact congrArg (fun t => t.1.snake) heq
  · exact congrArg (fun t => t.1.foods) heq
  · exact congrArg (fun t => t.1.points) heq
  · exact congrArg (fun t => t.1.rng) heq
  · exact congrArg (fun t => t.1.gameover) heq
  · exact congrArg (fun t => t.2.1) heq
  · exact congrArg (fun t => t.2.2) heq

/-! ### Small bridges for the snake geometry -/

theorem getLastD_eq_getLast (l : List Position) (h : l ≠ []) :
    l.getLastD default = l.getLast h := by
  rw [List.getLastD_eq_getLast?, List.getLast?_eq_getLast _ h]
  rfl

theorem inBox_of_not_oob (s : Snake) (h : s.isHeadOutOfGameBounds = false) :
    inBox s.getHead := by
  have h2 : ¬(s.getHead.x < -halfEdge ∨ halfEdge < s.getHead.x ∨
      s.getHead.y < -halfEdge ∨ halfEdge < s.getHead.y ∨
      s.getHead.z < -halfEdge ∨ halfEdge < s.getHead.z) := by
    rw [← Snake.isHeadOutOfGameBounds_iff]
    simp [h]
  push_neg at h2
  unfold inBox
  omega

theorem not_crossing_head_notmem (s : Snake) (h : s.isHeadCrossingBody = false) :
    s.getHead ∉ s.body.tail := by
  rw [Bool.eq_false_iff] at h
  intro hm
  exact h (s.isHeadCrossingBody_iff.2 ⟨s.getHead, hm, rfl⟩)

/-! ### Invariant preservation: the non-eating tick -/

theorem goToNextState_none_preserves (gs : GameState) (draw : Nat)
    (gs' : GameState) (evs : List Event) (pend : Option Int)
    (hInv : GameInv gs)
    (hidx : gs.indexOfFoodToBeEaten = none)
    (h : gs.goToNextState draw = .ok (gs', evs, pend))
    (hrun : gs'.gameover = false) :
    GameInv gs' := by
  obtain ⟨rng1, hok, hsnake, hfoods, hpoints, hrng, hgo, -, -⟩ :=
    goToNextState_none_fields gs draw gs' evs pend hidx h
  obtain ⟨hbody, -, hupd, -⟩ := moveAndNotGrow_parts gs.snake gs.rng
  have hBne : gs.snake.body ≠ [] := hInv.body_ne
  -- the run continues, so the move was not terminal
  rw [hrun] at hgo
  have hng := hgo.symm
  rw [Bool.or_eq_false_iff, Bool.or_eq_false_iff] at hng
  have hcross : (gs.snake.moveAndNotGrow gs.rng).1.isHeadCrossingBody = false := hng.2.1
  have hoob : (gs.snake.moveAndNotGrow gs.rng).1.isHeadOutOfGameBounds = false := hng.2.2
  -- hence the generator substitution did run
  have hcond := hupd ⟨hoob, hcross⟩
  rw [hcond] at hok
  have hupd2 := updateOccupated_ok_elim _ _ _ _ hok
  obtain ⟨hlow, hhigh, -, hrange, hnotmem, holdmem⟩ :=
    updateExcluded_ok _ _ _ _ hupd2
  obtain ⟨hsorted', hmem'⟩ :=
    updateExcluded_sorted_spec _ _ _ _ hInv.sorted hupd2
  -- geometry of the moved snake
  have hhead1 : (gs.snake.moveAndNotGrow gs.rng).1.getHead = gs.snake.targetBlock := by
    rw [Snake.getHead, hbody]
    rfl
  have htail1 : (gs.snake.moveAndNotGrow gs.rng).1.body.tail = gs.snake.body.dropLast := by
    rw [hbody]
    rfl
  have hT_box : inBox gs.snake.targetBlock := by
    have := inBox_of_not_oob _ hoob
    rwa [hhead1] at this
  have hT_not_drop : gs.snake.targetBlock ∉ gs.snake.body.dropLast := by
    have := not_crossing_head_notmem _ hcross
    rwa [hhead1, htail1] at this
  have hT_not_food : ∀ p ∈ gs.foods.map Food.location, gs.snake.targetBlock ≠ p := by
    intro p hp
    obtain ⟨f, hf, rfl⟩ := List.mem_map.1 hp
    exact indexOfFoodToBeEaten_none gs hidx f hf
  -- decomposition of the old body
  have htailD : gs.snake.body.getLastD default = gs.snake.body.getLast hBne :=
    getLastD_eq_getLast _ hBne
  have hBsplit : gs.snake.body.dropLast ++ [gs.snake.body.getLastD default] = gs.snake.body := by
    rw [htailD]
    exact List.dropLast_append_getLast hBne
  have htail_mem : gs.snake.body.getLastD default ∈ gs.snake.body := by
    rw [htailD]
    exact List.getLast_mem hBne
  -- distinctness facts from the old invariant
  have hoccnodup := hInv.occ_nodup
  rw [occupiedCells, List.nodup_append] at hoccnodup
  obtain ⟨hBnodup, hFnodup, hBFdisj⟩ := hoccnodup
  have hBnodup2 : (gs.snake.body.dropLast ++ [gs.snake.body.getLastD default]).Nodup := by
    rw [hBsplit]; exact hBnodup
  rw [List.nodup_append] at hBnodup2
  have htail_not_drop : gs.snake.body.getLastD default ∉ gs.snake.body.dropLast := by
    intro hmem
    exact hBnodup2.2.2 hmem (by simp)
  have htail_not_food : gs.snake.body.getLastD default ∉ gs.foods.map Food.location :=
    fun hmem => hBFdisj htail_mem hmem
  have hdrop_sub : ∀ p, p ∈ gs.snake.body.dropLast → p ∈ gs.snake.body :=
    fun p hp => (List.dropLast_sublist gs.snake.body).subset hp
  have hocc_of_drop : ∀ p, p ∈ gs.snake.body.dropLast → p ∈ occupiedCells gs := by
    intro p hp
    exact List.mem_append.2 (Or.inl (hdrop_sub p hp))
  have hocc_of_food : ∀ p, p ∈ gs.foods.map Food.location → p ∈ occupiedCells gs :=
    fun p hp => List.mem_append.2 (Or.inr hp)
  have htail_occ : gs.snake.body.getLastD default ∈ occupiedCells gs :=
    List.mem_append.2 (Or.inl htail_mem)
  have htail_box : inBox (gs.snake.body.getLastD default) := hInv.occ_inbox _ htail_occ
  -- the new occupied cells
  have hocc' : occupiedCells gs' =
      gs.snake.targetBlock :: (gs.snake.body.dropLast ++ gs.foods.map Food.location) := by
    rw [occupiedCells, hsnake, hfoods, hbody, List.cons_append]
  constructor
  case low_eq => rw [hrng, show rng1.rng.low = gs.rng.rng.low from hlow, hInv.low_eq]
  case high_eq => rw [hrng, show rng1.rng.high = gs.rng.rng.high from hhigh, hInv.high_eq]
  case sorted => rw [hrng]; exact hsorted'
  case body_ne =>
    rw [hsnake, hbody]
    simp
  case occ_nodup =>
    rw [hocc']
    rw [List.nodup_cons]
    constructor
    · intro hmem
      rcases List.mem_append.1 hmem with hmem | hmem
      · exact hT_not_drop hmem
      · exact hT_not_food _ hmem rfl
    · have hsub : List.Sublist (gs.snake.body.dropLast ++ gs.foods.map Food.location)
          (gs.snake.body ++ gs.foods.map Food.location) :=
        (List.dropLast_sublist gs.snake.body).append_right _
      exact hInv.occ_nodup.sublist hsub
  case occ_inbox =>
    rw [hocc']
    intro p hp
    rcases List.mem_cons.1 hp with rfl | hp
    · exact hT_box
    · rcases List.mem_append.1 hp with hp | hp
      · exact hInv.occ_inbox p (hocc_of_drop p hp)
      · exact hInv.occ_inbox p (hocc_of_food p hp)
  case excl_iff =>
    intro v
    rw [hocc', hrng, hmem' v]
    constructor
    · rintro (⟨hv, hne⟩ | rfl)
      · obtain ⟨p, hp, hflat⟩ := (hInv.excl_iff v).1 hv
        rcases List.mem_append.1 hp with hpB | hpF
        · rw [← hBsplit] at hpB
          rcases List.mem_append.1 hpB with hpD | hpT
          · exact ⟨p, List.mem_cons.2 (Or.inr (List.mem_append.2 (Or.inl hpD))), hflat⟩
          · exfalso
            apply hne
            rw [← hflat]
            congr 1
            simpa using hpT
        · exact ⟨p, List.mem_cons.2 (Or.inr (List.mem_append.2 (Or.inr hpF))), hflat⟩
      · exact ⟨gs.snake.targetBlock, List.mem_cons.2 (Or.inl rfl), rfl⟩
    · rintro ⟨p, hp, hflat⟩
      rcases List.mem_cons.1 hp with rfl | hp
      · exact Or.inr hflat.symm
      · rcases List.mem_append.1 hp with hpD | hpF
        · refine Or.inl ⟨(hInv.excl_iff v).2 ⟨p, hocc_of_drop p hpD, hflat⟩, ?_⟩
          intro hveq
          have hpt : p = gs.snake.body.getLastD default :=
            posToFlat_inj p _ (hInv.occ_inbox p (hocc_of_drop p hpD)) htail_box
              (by rw [hflat, hveq])
          rw [hpt] at hpD
          exact htail_not_drop hpD
        · refine Or.inl ⟨(hInv.excl_iff v).2 ⟨p, hocc_of_food p hpF, hflat⟩, ?_⟩
          intro hveq
          have hpt : p = gs.snake.body.getLastD default :=
            posToFlat_inj p _ (hInv.occ_inbox p (hocc_of_food p hpF)) htail_box
              (by rw [hflat, hveq])
          rw [hpt] at hpF
          exact htail_not_food hpF

/-! ### Invariant preservation: placing one food -/

theorem replaceFood_none_preserves (gs : GameState) (draw : Nat)
    (gs1 : GameState) (evs1 : List Event)
    (hInv : GameInv gs)
    (h : gs.replaceFood none draw = .ok (gs1, evs1)) :
    GameInv gs1 := by
  obtain ⟨pos, rng1, hgen, hadd, hgs1, -⟩ := replaceFood_none_elim gs draw gs1 evs1 h
  obtain ⟨hpos_box, hpos_fresh, -, -⟩ := generate_ok_facts gs.rng draw pos
    (Int.natCast_nonneg draw) hInv.low_eq hInv.high_eq hInv.sorted hgen
  have hadd2 := addOcuppated_ok_elim _ _ _ hadd
  obtain ⟨hlow1, hhigh1, -, -, -⟩ := addExcluded_ok _ _ _ hadd2
  obtain ⟨hsorted1, hmem1⟩ := addExcluded_sorted_spec _ _ _ hInv.sorted hadd2
  have hg1snake : gs1.snake = gs.snake := by rw [hgs1]
  have hg1foods : gs1.foods = gs.foods ++ [⟨pos⟩] := by rw [hgs1]
  have hg1rng : gs1.rng = rng1 := by rw [hgs1]
  have hpos_not_occ : pos ∉ occupiedCells gs :=
    fun hmem => hpos_fresh ((hInv.excl_iff _).2 ⟨pos, hmem, rfl⟩)
  have hocc1 : occupiedCells gs1 = occupiedCells gs ++ [pos] := by
    rw [occupiedCells, hg1snake, hg1foods, List.map_append, occupiedCells,
      ← List.append_assoc]
    rfl
  constructor
  case low_eq => rw [hg1rng, show rng1.rng.low = gs.rng.rng.low from hlow1, hInv.low_eq]
  case high_eq => rw [hg1rng, show rng1.rng.high = gs.rng.rng.high from hhigh1, hInv.high_eq]
  case sorted => rw [hg1rng]; exact hsorted1
  case body_ne => rw [hg1snake]; exact hInv.body_ne
  case occ_nodup =>
    rw [hocc1, List.nodup_append]
    refine ⟨hInv.occ_nodup, by simp, ?_⟩
    intro a ha hb
    rw [List.mem_singleton] at hb
    rw [hb] at ha
    exact hpos_not_occ ha
  case occ_inbox =>
    rw [hocc1]
    intro p hp
    rcases List.mem_append.1 hp with hp | hp
    · exact hInv.occ_inbox p hp
    · rw [List.mem_singleton] at hp
      rw [hp]
      exact hpos_box
  case excl_iff =>
    intro v
    rw [hg1rng, hmem1 v, hocc1]
    constructor
    · rintro (hv | rfl)
      · obtain ⟨p, hp, hflat⟩ := (hInv.excl_iff v).1 hv
        exact ⟨p, List.mem_append.2 (Or.inl hp), hflat⟩
      · exact ⟨pos, List.mem_append.2 (Or.inr (by simp)), rfl⟩
    · rintro ⟨p, hp, hflat⟩
      rcases List.mem_append.1 hp with hp | hp
      · exact Or.inl ((hInv.excl_iff v).2 ⟨p, hp, hflat⟩)
      · rw [List.mem_singleton] at hp
        rw [hp] at hflat
        exact Or.inr hflat.symm

/-! ### Invariant preservation: the eating tick -/

theorem goToNextState_some_preserves (gs : GameState) (draw : Nat) (i : Nat)
    (gs' : GameState) (evs : List Event) (pend : Option Int)
    (hInv : GameInv gs)
    (hidx : gs.indexOfFoodToBeEaten = some i)
    (h : gs.goToNextState draw = .ok (gs', evs, pend)) :
    GameInv gs' := by
  obtain ⟨gs1, evs1, hrf, hsnake, hfoods, hpoints, hrng, -, -, -⟩ :=
    goToNextState_some_fields gs draw i gs' evs pend hidx h
  obtain ⟨pos, rng1, hgen, hadd, hgs1, -⟩ := replaceFood_some_elim gs i draw gs1 evs1 hrf
  obtain ⟨hlen, hTloc⟩ := indexOfFoodToBeEaten_some gs i hidx
  obtain ⟨hpos_box, hpos_fresh, -, -⟩ := generate_ok_facts gs.rng draw pos
    (Int.natCast_nonneg draw) hInv.low_eq hInv.high_eq hInv.sorted hgen
  have hadd2 := addOcuppated_ok_elim _ _ _ hadd
  obtain ⟨hlow1, hhigh1, -, -, -⟩ := addExcluded_ok _ _ _ hadd2
  obtain ⟨hsorted1, hmem1⟩ := addExcluded_sorted_spec _ _ _ hInv.sorted hadd2
  have hg1snake : gs1.snake = gs.snake := by rw [hgs1]
  have hg1foods : gs1.foods = gs.foods.set i ⟨pos⟩ := by rw [hgs1]
  have hg1rng : gs1.rng = rng1 := by rw [hgs1]
  obtain ⟨hgbody, -⟩ := moveAndGrow_parts gs1.snake
  -- membership bookkeeping for the occupied cells
  have hoccnodup := hInv.occ_nodup
  rw [occupiedCells, List.nodup_append] at hoccnodup
  obtain ⟨hBnodup, hFnodup, hBFdisj⟩ := hoccnodup
  have hmap1 : List.Perm ((gs.foods.set i ⟨pos⟩).map Food.location)
      (pos :: (gs.foods.eraseIdx i).map Food.location) := by
    simpa using (set_perm_cons_eraseIdx gs.foods i hlen ⟨pos⟩).map Food.location
  have hmap2 : List.Perm (gs.foods.map Food.location)
      ((gs.foods.get ⟨i, hlen⟩).location :: (gs.foods.eraseIdx i).map Food.location) := by
    simpa using (perm_get_cons_eraseIdx gs.foods i hlen).map Food.location
  have hE_sub : ∀ p ∈ (gs.foods.eraseIdx i).map Food.location, p ∈ gs.foods.map Food.location :=
    fun p hp => ((List.eraseIdx_sublist gs.foods i).map Food.location).subset hp
  have hT_memF : gs.snake.targetBlock ∈ gs.foods.map Food.location := by
    rw [hTloc]
    exact hmap2.symm.subset (List.mem_cons.2 (Or.inl rfl))
  have hT_occ : gs.snake.targetBlock ∈ occupiedCells gs :=
    List.mem_append.2 (Or.inr hT_memF)
  have hpos_not_occ : pos ∉ occupiedCells gs :=
    fun hmem => hpos_fresh ((hInv.excl_iff _).2 ⟨pos, hmem, rfl⟩)
  have hT_not_E : gs.snake.targetBlock ∉ (gs.foods.eraseIdx i).map Food.location := by
    have hnodupTE := hmap2.nodup hFnodup
    rw [List.nodup_cons] at hnodupTE
    rw [hTloc]
    exact hnodupTE.1
  have hE_nodup : ((gs.foods.eraseIdx i).map Food.location).Nodup := by
    have hnodupTE := hmap2.nodup hFnodup
    rw [List.nodup_cons] at hnodupTE
    exact hnodupTE.2
  -- the new occupied cells, up to permutation
  have hocc' : occupiedCells gs' =
      (gs.snake.targetBlock :: gs.snake.body) ++ (gs.foods.set i ⟨pos⟩).map Food.location := by
    rw [occupiedCells, hsnake, hgbody, hfoods, hg1foods]
    show (gs1.snake.targetBlock :: gs1.snake.body) ++ _ = _
    rw [hg1snake]
  have hoccperm : List.Perm (occupiedCells gs')
      ((gs.snake.targetBlock :: gs.snake.body) ++
        (pos :: (gs.foods.eraseIdx i).map Food.location)) := by
    rw [hocc']
    exact hmap1.append_left _
  have hmemOcc' : ∀ p, p ∈ occupiedCells gs' ↔
      p = gs.snake.targetBlock ∨ p ∈ gs.snake.body ∨ p = pos ∨
        p ∈ (gs.foods.eraseIdx i).map Food.location := by
    intro p
    rw [hoccperm.mem_iff]
    simp only [List.mem_append, List.mem_cons]
    tauto
  have hmemOcc : ∀ p, p ∈ occupiedCells gs ↔
      p ∈ gs.snake.body ∨ p = gs.snake.targetBlock ∨
        p ∈ (gs.foods.eraseIdx i).map Food.location := by
    intro p
    rw [occupiedCells, List.mem_append, hmap2.mem_iff, List.mem_cons, ← hTloc]
  constructor
  case low_eq => rw [hrng, hg1rng, show rng1.rng.low = gs.rng.rng.low from hlow1, hInv.low_eq]
  case high_eq =>
    rw [hrng, hg1rng, show rng1.rng.high = gs.rng.rng.high from hhigh1, hInv.high_eq]
  case sorted => rw [hrng, hg1rng]; exact hsorted1
  case body_ne =>
    rw [hsnake, hgbody]
    simp
  case occ_nodup =>
    refine hoccperm.symm.nodup ?_
    rw [List.nodup_append, List.nodup_cons, List.nodup_cons]
    refine ⟨⟨fun hm => hBFdisj hm hT_memF, hBnodup⟩, ⟨?_, hE_nodup⟩, ?_⟩
    · intro hm
      exact hpos_not_occ (List.mem_append.2 (Or.inr (hE_sub _ hm)))
    · intro a ha hb
      rcases List.mem_cons.1 ha with rfl | ha
      · rcases List.mem_cons.1 hb with heq | hb
        · exact hpos_not_occ (heq ▸ hT_occ)
        · exact hT_not_E hb
      · rcases List.mem_cons.1 hb with heq | hb
        · exact hpos_not_occ (heq ▸ List.mem_append.2 (Or.inl ha))
        · exact hBFdisj ha (hE_sub _ hb)
  case occ_inbox =>
    intro p hp
    rcases (hmemOcc' p).1 hp with rfl | hp | rfl | hp
    · exact hInv.occ_inbox _ hT_occ
    · exact hInv.occ_inbox p (List.mem_append.2 (Or.inl hp))
    · exact hpos_box
    · exact hInv.occ_inbox p (List.mem_append.2 (Or.inr (hE_sub _ hp)))
  case excl_iff =>
    intro v
    rw [hrng, hg1rng, hmem1 v]
    constructor
    · rintro (hv | rfl)
      · obtain ⟨p, hp, hflat⟩ := (hInv.excl_iff v).1 hv
        refine ⟨p, ?_, hflat⟩
        rcases (hmemOcc p).1 hp with hp | rfl | hp
        · exact (hmemOcc' p).2 (Or.inr (Or.inl hp))
        · exact (hmemOcc' _).2 (Or.inl rfl)
        · exact (hmemOcc' p).2 (Or.inr (Or.inr (Or.inr hp)))
      · exact ⟨pos, (hmemOcc' pos).2 (Or.inr (Or.inr (Or.inl rfl))), rfl⟩
    · rintro ⟨p, hp, hflat⟩
      rcases (hmemOcc' p).1 hp with rfl | hp | rfl | hp
      · exact Or.inl ((hInv.excl_iff v).2 ⟨_, hT_occ, hflat⟩)
      · exact Or.inl ((hInv.excl_iff v).2 ⟨p, List.mem_append.2 (Or.inl hp), hflat⟩)
      · exact Or.inr hflat.symm
      · exact Or.inl ((hInv.excl_iff v).2
          ⟨p, List.mem_append.2 (Or.inr (hE_sub _ hp)), hflat⟩)

/-! ### Establishment of the invariant by the constructor -/

theorem addFoods_preserves :
    ∀ (n : Nat) (draws : Nat → Nat) (gs gs2 : GameState) (evs : List Event),
      GameInv gs → addFoods n draws gs = .ok (gs2, evs) → GameInv gs2 := by
  intro n
  induction n with
  | zero =>
    intro draws gs gs2 evs hInv h
    simp only [addFoods] at h
    injection h with h'
    injection h' with h1 h2
    rw [← h1]
    exact hInv
  | succ n ih =>
    intro draws gs gs2 evs hInv h
    simp only [addFoods] at h
    split at h
    · cases h
    · rename_i gs1 evs1 hrf
      split at h
      · cases h
      · rename_i gs3 evs3 hrec
        injection h with h'
        injection h' with h1 h2
        rw [← h1]
        exact ih (fun k => draws (k + 1)) gs1 gs3 evs3
          (replaceFood_none_preserves gs (draws 0) gs1 evs1 hInv hrf) hrec

/-- The state right after the snake constructor ran inside the `GameState`
constructor (before food placement). -/
def initialGameState : GameState :=
  ⟨⟨[⟨0, 0, 0⟩], .xPos, false⟩, [], 0, false, ⟨⟨0, BOX_HIGH, [4630]⟩⟩⟩

theorem initialGameState_inv : GameInv initialGameState := by
  constructor
  case low_eq => rfl
  case high_eq => rfl
  case sorted => simp [initialGameState]
  case body_ne => simp [initialGameState]
  case occ_nodup => simp [initialGameState, occupiedCells]
  case occ_inbox =>
    intro p hp
    simp only [initialGameState, occupiedCells, List.map_nil, List.append_nil,
      List.mem_singleton] at hp
    rw [hp]
    decide
  case excl_iff =>
    intro v
    simp only [initialGameState, occupiedCells, List.map_nil, List.append_nil,
      List.mem_singleton]
    constructor
    · intro hv
      refine ⟨⟨0, 0, 0⟩, rfl, ?_⟩
      have : v = 4630 := by simpa using hv
      rw [this]
      decide
    · rintro ⟨p, rfl, hflat⟩
      have : v = 4630 := by rw [← hflat]; decide
      simp [this]

theorem mkGameState_elim (draws : Nat → Nat) (gs : GameState) (evs : List Event)
    (h : mkGameState draws = .ok (gs, evs)) :
    ∃ evs2, addFoods FOOD_AMOUNT draws initialGameState = .ok (gs, evs2) := by
  simp only [mkGameState] at h
  split at h
  · rename_i e heq
    rw [show mkSnake mkPositionGenerator =
      Except.ok (⟨[⟨0, 0, 0⟩], Direction.xPos, false⟩, ⟨⟨0, BOX_HIGH, [4630]⟩⟩,
        [Event.snakeEntered ⟨0, 0, 0⟩]) from rfl] at heq
    cases heq
  · rename_i snake rng1 evs1 heq
    rw [show mkSnake mkPositionGenerator =
      Except.ok (⟨[⟨0, 0, 0⟩], Direction.xPos, false⟩, ⟨⟨0, BOX_HIGH, [4630]⟩⟩,
        [Event.snakeEntered ⟨0, 0, 0⟩]) from rfl] at heq
    injection heq with heq
    injection heq with heq1 heq
    injection heq with heq2 heq3
    subst heq1
    subst heq2
    split at h
    · cases h
    · rename_i gs2 evs2 haf
      injection h with h'
      have hgs : gs2 = gs := congrArg Prod.fst h'
      rw [hgs] at haf
      exact ⟨evs2, haf⟩

theorem mkGameState_inv (draws : Nat → Nat) (gs : GameState) (evs : List Event)
    (h : mkGameState draws = .ok (gs, evs)) : GameInv gs := by
  obtain ⟨evs2, haf⟩ := mkGameState_elim draws gs evs h
  exact addFoods_preserves FOOD_AMOUNT draws initialGameState gs evs2
    initialGameState_inv haf

/-! ### Concrete scenario states -/

/-- A running state one step from the wall: head at `(10, 0, 0)` facing
`+X`, one food at `(0, 5, 0)`.  The exclusion list holds the flat indices
`4640 = posToFlat (10,0,0)` and `4735 = posToFlat (0,5,0)`. -/
def deadState : GameState :=
  ⟨⟨[⟨10, 0, 0⟩], .xPos, false⟩, [⟨⟨0, 5, 0⟩⟩], 0, false, ⟨⟨0, BOX_HIGH, [4640, 4735]⟩⟩⟩

/-- The state after the terminal tick of `deadState`. -/
def deadStateAfter : GameState :=
  ⟨⟨[⟨11, 0, 0⟩], .xPos, false⟩, [⟨⟨0, 5, 0⟩⟩], 0, true, ⟨⟨0, BOX_HIGH, [4640, 4735]⟩⟩⟩

theorem deadState_step :
    deadState.goToNextState 0 =
      .ok (deadStateAfter,
        [Event.snakeLeft ⟨10, 0, 0⟩, Event.snakeEntered ⟨11, 0, 0⟩], some 0) := rfl

/-! ### Claim C6: moveAndNotGrow -/

/-- C6.  `moveAndNotGrow` prepends the target cell and drops the tail cell
(length preserved), emits exactly "snake left tail cell" then "snake
entered target", clears the rotation lock, keeps the orientation, and
performs the generator substitution `updateOccupated(tail, head)` iff the
new head is neither out of bounds nor crossing the body (the generator is
left untouched on a terminal move).  The final conjunct is the concrete
case of the claim: body `[(0,0,0)]` facing `+X`. -/
theorem spec_c6_moveAndNotGrow (s : Snake) (g : ExclusiveRandomPositionGenerator)
    (hne : s.body ≠ []) :
    (s.moveAndNotGrow g).1.body = s.targetBlock :: s.body.dropLast ∧
    (s.moveAndNotGrow g).1.body.length = s.body.length ∧
    (s.moveAndNotGrow g).1.orientation = s.orientation ∧
    (s.moveAndNotGrow g).1.hasRotatedSinceLastMove = false ∧
    (s.moveAndNotGrow g).2.1 =
      [Event.snakeLeft (s.body.getLastD default), Event.snakeEntered s.targetBlock] ∧
    ((s.moveAndNotGrow g).1.isHeadOutOfGameBounds = false ∧
      (s.moveAndNotGrow g).1.isHeadCrossingBody = false →
      (s.moveAndNotGrow g).2.2 = g.updateOccupated (s.body.getLastD default) s.targetBlock) ∧
    ((s.moveAndNotGrow g).1.isHeadOutOfGameBounds = true ∨
      (s.moveAndNotGrow g).1.isHeadCrossingBody = true →
      (s.moveAndNotGrow g).2.2 = .ok g) ∧
    (Snake.mk [⟨0, 0, 0⟩] .xPos false).moveAndNotGrow ⟨⟨0, BOX_HIGH, [4630]⟩⟩ =
      (Snake.mk [⟨1, 0, 0⟩] .xPos false,
       [Event.snakeLeft ⟨0, 0, 0⟩, Event.snakeEntered ⟨1, 0, 0⟩],
       .ok ⟨⟨0, BOX_HIGH, [4631]⟩⟩) := by
  obtain ⟨hbody, hevs, hupd, hskip⟩ := moveAndNotGrow_parts s g
  refine ⟨by rw [hbody], ?_, by rw [hbody], by rw [hbody], hevs, hupd, hskip, rfl⟩
  rw [hbody]
  simp only [List.length_cons, List.length_dropLast]
  have : s.body.length ≠ 0 := fun h => hne (List.length_eq_zero.1 h)
  omega

/-- Witness for C6 at the concrete one-segment snake of the claim. -/
theorem spec_c6_moveAndNotGrow_witness :
    ((Snake.mk [⟨0, 0, 0⟩] Direction.xPos false).moveAndNotGrow
      ⟨⟨0, BOX_HIGH, [4630]⟩⟩).1.body.length = ([(⟨0, 0, 0⟩ : Position)]).length :=
  (spec_c6_moveAndNotGrow (Snake.mk [⟨0, 0, 0⟩] Direction.xPos false)
    ⟨⟨0, BOX_HIGH, [4630]⟩⟩ (by simp)).2.1

/-! ### Claim C8: the termination condition -/

/-- C8.  A `goToNextState` call from a running state sets the terminal
flag iff, after the movement of the tick, the head crosses the body or is
out of bounds; `isHeadCrossingBody` is true exactly when the head equals
a non-head body cell (a member of the body tail); `isHeadOutOfGameBounds`
is true exactly when some head coordinate exceeds
`±⌊21 / 2⌋ = ±10`; and for a body of length 1 (a freshly constructed
snake) `isHeadCrossingBody` is always false. -/
theorem spec_c8_termination_condition :
    (∀ (gs : GameState) (draw : Nat) (gs' : GameState) (evs : List Event) (pend : Option Int),
      gs.gameover = false → gs.goToNextState draw = .ok (gs', evs, pend) →
      (gs'.gameover = true ↔
        (gs'.snake.isHeadCrossingBody = true ∨ gs'.snake.isHeadOutOfGameBounds = true))) ∧
    (∀ s : Snake, s.isHeadCrossingBody = true ↔ s.getHead ∈ s.body.tail) ∧
    (halfEdge = 10 ∧ ∀ s : Snake, s.isHeadOutOfGameBounds = true ↔
      (s.getHead.x < -10 ∨ 10 < s.getHead.x ∨ s.getHead.y < -10 ∨ 10 < s.getHead.y ∨
       s.getHead.z < -10 ∨ 10 < s.getHead.z)) ∧
    (∀ s : Snake, s.body.length = 1 → s.isHeadCrossingBody = false) := by
  have hhalf : halfEdge = 10 := by decide
  refine ⟨?_, ?_, ⟨hhalf, ?_⟩, ?_⟩
  · intro gs draw gs' evs pend hpre h
    cases hidx : gs.indexOfFoodToBeEaten with
    | none =>
      obtain ⟨rng1, -, heq⟩ := goToNextState_none_elim gs draw gs' evs pend hidx h
      rw [finishTick_eq] at heq
      rw [Prod.mk.injEq, Prod.mk.injEq] at heq
      obtain ⟨hgs, -, -⟩ := heq
      subst hgs
      simp only [GameState.isNowGameOver, hpre, Bool.false_or, Bool.or_eq_true]
    | some i =>
      obtain ⟨gs1, evs1, hrf, heq⟩ := goToNextState_some_elim gs draw i gs' evs pend hidx h
      obtain ⟨pos, rng1, -, -, hgs1, -⟩ := replaceFood_some_elim gs i draw gs1 evs1 hrf
      rw [finishTick_eq] at heq
      rw [Prod.mk.injEq, Prod.mk.injEq] at heq
      obtain ⟨hgs, -, -⟩ := heq
      subst hgs
      subst hgs1
      simp only [GameState.isNowGameOver, hpre, Bool.false_or, Bool.or_eq_true]
  · intro s
    rw [Snake.isHeadCrossingBody_iff]
    constructor
    · rintro ⟨p, hp, heq⟩
      rw [heq]
      exact hp
    · intro hmem
      exact ⟨s.getHead, hmem, rfl⟩
  · intro s
    rw [Snake.isHeadOutOfGameBounds_iff, hhalf]
  · intro s hlen
    rw [Bool.eq_false_iff]
    intro h
    obtain ⟨p, hp, -⟩ := s.isHeadCrossingBody_iff.1 h
    cases hb : s.body with
    | nil => rw [hb] at hlen; simp at hlen
    | cons b bs =>
      rw [hb] at hlen hp
      simp only [List.length_cons, Nat.add_left_eq_self] at hlen
      rw [List.length_eq_zero] at hlen
      rw [hlen] at hp
      simp at hp

/-- Witness for C8: the concrete terminal tick of `deadState` (head
stepping from `(10,0,0)` to `(11,0,0)`), and the fresh one-segment
snake. -/
theorem spec_c8_termination_condition_witness :
    (deadStateAfter.gameover = true ↔
      (deadStateAfter.snake.isHeadCrossingBody = true ∨
        deadStateAfter.snake.isHeadOutOfGameBounds = true)) ∧
    (Snake.mk [⟨0, 0, 0⟩] Direction.xPos false).isHeadCrossingBody = false :=
  ⟨spec_c8_termination_condition.1 deadState 0 deadStateAfter
      [Event.snakeLeft ⟨10, 0, 0⟩, Event.snakeEntered ⟨11, 0, 0⟩] (some 0) rfl deadState_step,
   spec_c8_termination_condition.2.2.2 (Snake.mk [⟨0, 0, 0⟩] Direction.xPos false) rfl⟩

/-! ### Claim C2: occupancy / exclusion consistency -/

/-- C2.  After `GameState` construction, and after every successful
`goToNextState` call that leaves the game running, the generator's
exclusion set is exactly the flat image of the snake-body and food cells:
every occupied cell is excluded and every excluded value corresponds to
an occupied cell — no leaks, no stale entries.  The full inductive
invariant `GameInv` (which additionally records sortedness,
duplicate-freeness and in-box bounds) is established by the constructor
and preserved by every running tick. -/
theorem spec_c2_occupancy_exclusion_consistency :
    (∀ (draws : Nat → Nat) (gs : GameState) (evs : List Event),
      mkGameState draws = .ok (gs, evs) → GameInv gs ∧ OccuConsistent gs) ∧
    (∀ (gs : GameState) (draw : Nat) (gs' : GameState) (evs : List Event) (pend : Option Int),
      GameInv gs → gs.goToNextState draw = .ok (gs', evs, pend) → gs'.gameover = false →
        GameInv gs' ∧ OccuConsistent gs') := by
  constructor
  · intro draws gs evs h
    have hInv := mkGameState_inv draws gs evs h
    exact ⟨hInv, hInv.occuConsistent⟩
  · intro gs draw gs' evs pend hInv h hrun
    cases hidx : gs.indexOfFoodToBeEaten with
    | none =>
      have hInv' := goToNextState_none_preserves gs draw gs' evs pend hInv hidx h hrun
      exact ⟨hInv', hInv'.occuConsistent⟩
    | some i =>
      have hInv' := goToNextState_some_preserves gs draw i gs' evs pend hInv hidx h
      exact ⟨hInv', hInv'.occuConsistent⟩

/-- The draw stream used for the concrete constructed game. -/
def sampleDraws : Nat → Nat := fun _ => 0

/-- The concrete game built by the constructor from `sampleDraws`. -/
def sampleGameState : GameState :=
  match mkGameState sampleDraws with
  | .ok (gs, _) => gs
  | .error _ => initialGameState

/-- The constructor events of `sampleGameState`. -/
def sampleEvents : List Event :=
  match mkGameState sampleDraws with
  | .ok (_, evs) => evs
  | .error _ => []

/-- The state after one running tick of `sampleGameState`. -/
def sampleGameState2 : GameState :=
  match sampleGameState.goToNextState 0 with
  | .ok (gs, _, _) => gs
  | .error _ => initialGameState

/-- The events of that tick. -/
def sampleEvents2 : List Event :=
  match sampleGameState.goToNextState 0 with
  | .ok (_, evs, _) => evs
  | .error _ => []

/-- Witness for C2: the invariant holds for a concretely constructed game
and is carried through a concrete running tick. -/
theorem spec_c2_occupancy_exclusion_consistency_witness :
    (GameInv sampleGameState ∧ OccuConsistent sampleGameState) ∧
    (GameInv sampleGameState2 ∧ OccuConsistent sampleGameState2) :=
  ⟨spec_c2_occupancy_exclusion_consistency.1 sampleDraws sampleGameState sampleEvents rfl,
   spec_c2_occupancy_exclusion_consistency.2 sampleGameState 0 sampleGameState2
     sampleEvents2 none
     (spec_c2_occupancy_exclusion_consistency.1 sampleDraws sampleGameState
       sampleEvents rfl).1
     rfl rfl⟩

/-! ### Claim C4: observer notification -/

/-- Counterexample to C4 as stated: on the concrete tick that ends the
game (`deadState`, head stepping out of bounds), `goToNextState` returns
with the terminal flag set, yet its synchronous notifications contain no
game-over event at all — the game-over notification is issued only from
the score-submission callback, after `goToNextState` has returned, so it
is *not* delivered to the observers before the triggering operation
returns. -/
theorem spec_c4_counterexample :
    deadState.goToNextState 0 =
      .ok (deadStateAfter,
        [Event.snakeLeft ⟨10, 0, 0⟩, Event.snakeEntered ⟨11, 0, 0⟩], some 0) ∧
    deadStateAfter.gameover = true ∧
    (∀ e ∈ [Event.snakeLeft (⟨10, 0, 0⟩ : Position),
        Event.snakeEntered (⟨11, 0, 0⟩ : Position)], e.isGameover = false) :=
  ⟨deadState_step, rfl, by decide⟩

/-- C4 (amended: the synchronous-and-ordered guarantee holds for the five
event kinds snake-left, snake-entered, food-left, food-entered and
score-changed; the game-over notification is dispatched to every
registered observer in registration order as well, but only from the
score-submission callback after `goToNextState` returns — the tick that
ends the game merely initiates that submission).  (a) a notification loop
invokes every registered observer exactly once, in registration order;
(b) dispatching the emitted events notifies, for each event in emission
order, every observer in registration order; (c) the synchronous events
of a successful tick never include a game-over event; (d) from a running
state, the tick sets the terminal flag iff it hands the (deferred)
submission exactly the final score. -/
theorem spec_c4_notification_order :
    (∀ (observers : List Nat) (e : Event),
      notifyLoop observers e = observers.map (fun o => (o, e))) ∧
    (∀ (observers : List Nat) (evs : List Event),
      dispatchEvents observers evs =
        (evs.map (fun e => observers.map (fun o => (o, e)))).flatten) ∧
    (∀ (gs : GameState) (draw : Nat) (gs' : GameState) (evs : List Event) (pend : Option Int),
      gs.goToNextState draw = .ok (gs', evs, pend) → ∀ e ∈ evs, e.isGameover = false) ∧
    (∀ (gs : GameState) (draw : Nat) (gs' : GameState) (evs : List Event) (pend : Option Int),
      gs.gameover = false → gs.goToNextState draw = .ok (gs', evs, pend) →
      (gs'.gameover = true ↔ pend = some gs'.points)) := by
  have hloop : ∀ (observers : List Nat) (e : Event),
      notifyLoop observers e = observers.map (fun o => (o, e)) := by
    intro observers e
    induction observers with
    | nil => rfl
    | cons o rest ih => rw [notifyLoop, ih]; rfl
  refine ⟨hloop, ?_, ?_, ?_⟩
  · intro observers evs
    induction evs with
    | nil => rfl
    | cons e rest ih => rw [dispatchEvents, ih, List.map_cons, List.flatten_cons, hloop]
  · intro gs draw gs' evs pend h e he
    cases hidx : gs.indexOfFoodToBeEaten with
    | none =>
      obtain ⟨rng1, -, -, -, -, -, -, hevs, -⟩ :=
        goToNextState_none_fields gs draw gs' evs pend hidx h
      obtain ⟨-, hevs2, -, -⟩ := moveAndNotGrow_parts gs.snake gs.rng
      rw [hevs, hevs2] at he
      rcases List.mem_cons.1 he with rfl | he
      · rfl
      · rcases List.mem_cons.1 he with rfl | he
        · rfl
        · cases he
    | some i =>
      obtain ⟨gs1, evs1, hrf, -, -, -, -, -, hevs, -⟩ :=
        goToNextState_some_fields gs draw i gs' evs pend hidx h
      obtain ⟨pos, rng1, -, -, -, hevs1⟩ := replaceFood_some_elim gs i draw gs1 evs1 hrf
      obtain ⟨-, hgrow2⟩ := moveAndGrow_parts gs1.snake
      rw [hevs, hevs1, hgrow2] at he
      simp only [List.mem_append, List.mem_cons, List.not_mem_nil, or_false] at he
      rcases he with ((rfl | rfl) | rfl) | rfl <;> rfl
  · intro gs draw gs' evs pend hpre h
    cases hidx : gs.indexOfFoodToBeEaten with
    | none =>
      obtain ⟨rng1, -, -, -, hpoints, -, hgo, -, hpend⟩ :=
        goToNextState_none_fields gs draw gs' evs pend hidx h
      rw [hgo, hpre, Bool.false_or, hpend, hpoints]
      split
      · rename_i hc
        rw [hc]
        simp
      · rename_i hc
        rw [Bool.not_eq_true] at hc
        rw [hc]
        simp
    | some i =>
      obtain ⟨gs1, evs1, hrf, -, -, hpoints, -, hgo, -, hpend⟩ :=
        goToNextState_some_fields gs draw i gs' evs pend hidx h
      obtain ⟨pos, rng1, -, -, hgs1, -⟩ := replaceFood_some_elim gs i draw gs1 evs1 hrf
      have hg1go : gs1.gameover = gs.gameover := by rw [hgs1]
      rw [hgo, hg1go, hpre, Bool.false_or, hpend, hpoints]
      split
      · rename_i hc
        rw [hc]
        simp
      · rename_i hc
        rw [Bool.not_eq_true] at hc
        rw [hc]
        simp

/-- Witness for C4 at the concrete terminal tick of `deadState` and a
two-observer list. -/
theorem spec_c4_notification_order_witness :
    (notifyLoop [0, 1] (Event.pointsChanged 3) =
      [(0, Event.pointsChanged 3), (1, Event.pointsChanged 3)]) ∧
    (∀ e ∈ [Event.snakeLeft (⟨10, 0, 0⟩ : Position),
        Event.snakeEntered (⟨11, 0, 0⟩ : Position)], e.isGameover = false) ∧
    (deadStateAfter.gameover = true ↔ some 0 = some deadStateAfter.points) :=
  ⟨spec_c4_notification_order.1 [0, 1] (Event.pointsChanged 3),
   spec_c4_notification_order.2.2.1 deadState 0 deadStateAfter
     [Event.snakeLeft ⟨10, 0, 0⟩, Event.snakeEntered ⟨11, 0, 0⟩] (some 0) rfl,
   spec_c4_notification_order.2.2.2 deadState 0 deadStateAfter
     [Event.snakeLeft ⟨10, 0, 0⟩, Event.snakeEntered ⟨11, 0, 0⟩] (some 0) rfl rfl⟩

/-! ### Claim C5: the eating tick -/

/-- The concrete scenario of the claim: body `[(0,0,0)]` facing `+X`,
one food at `(1,0,0)`; the exclusion list holds their flat indices. -/
def eatState : GameState :=
  ⟨⟨[⟨0, 0, 0⟩], .xPos, false⟩, [⟨⟨1, 0, 0⟩⟩], 0, false, ⟨⟨0, BOX_HIGH, [4630, 4631]⟩⟩⟩

/-- C5.  On a tick whose target cell holds the lowest-index food `i`, the
snake grows by prepending the target cell (length + 1), the eaten food is
replaced in place by a freshly sampled food whose cell was not occupied
(its flat index joins the exclusion set), the score is incremented by
one, and the emitted events are exactly food-left(eaten), food-entered
(fresh), snake-entered(target), points-changed(new score) in that order.
The last conjuncts check the claim's concrete case. -/
theorem spec_c5_eating_tick :
    (∀ (gs : GameState) (draw : Nat) (i : Nat) (gs' : GameState)
        (evs : List Event) (pend : Option Int),
      GameInv gs → gs.indexOfFoodToBeEaten = some i →
      gs.goToNextState draw = .ok (gs', evs, pend) →
      (∃ hlen : i < gs.foods.length,
        gs.snake.targetBlock = (gs.foods.get ⟨i, hlen⟩).location) ∧
      gs'.snake.body = gs.snake.targetBlock :: gs.snake.body ∧
      gs'.snake.body.length = gs.snake.body.length + 1 ∧
      gs'.points = gs.points + 1 ∧
      (∃ newLoc : Position,
        gs'.foods = gs.foods.set i ⟨newLoc⟩ ∧
        posToFlat newLoc ∈ gs'.rng.rng.excluded ∧
        newLoc ∉ occupiedCells gs ∧ inBox newLoc ∧
        evs = [Event.foodLeft (gs.foods.getD i default).location,
               Event.foodEntered newLoc,
               Event.snakeEntered gs.snake.targetBlock,
               Event.pointsChanged (gs.points + 1)])) ∧
    eatState.snake.willEatFoodNext ⟨⟨1, 0, 0⟩⟩ = true ∧
    eatState.goToNextState 0 =
      .ok (⟨⟨[⟨1, 0, 0⟩, ⟨0, 0, 0⟩], .xPos, false⟩, [⟨⟨-10, -10, -10⟩⟩], 1, false,
            ⟨⟨0, BOX_HIGH, [0, 4630, 4631]⟩⟩⟩,
        [Event.foodLeft ⟨1, 0, 0⟩, Event.foodEntered ⟨-10, -10, -10⟩,
         Event.snakeEntered ⟨1, 0, 0⟩, Event.pointsChanged 1], none) := by
  refine ⟨?_, rfl, rfl⟩
  intro gs draw i gs' evs pend hInv hidx h
  obtain ⟨gs1, evs1, hrf, hsnake, hfoods, hpoints, hrng, -, hevs, -⟩ :=
    goToNextState_some_fields gs draw i gs' evs pend hidx h
  obtain ⟨pos, rng1, hgen, hadd, hgs1, hevs1⟩ := replaceFood_some_elim gs i draw gs1 evs1 hrf
  obtain ⟨hpos_box, hpos_fresh, -, -⟩ := generate_ok_facts gs.rng draw pos
    (Int.natCast_nonneg draw) hInv.low_eq hInv.high_eq hInv.sorted hgen
  have hadd2 := addOcuppated_ok_elim _ _ _ hadd
  obtain ⟨-, hmem1⟩ := addExcluded_sorted_spec _ _ _ hInv.sorted hadd2
  obtain ⟨hgbody, hgrow2⟩ := moveAndGrow_parts gs1.snake
  have hg1snake : gs1.snake = gs.snake := by rw [hgs1]
  have hg1foods : gs1.foods = gs.foods.set i ⟨pos⟩ := by rw [hgs1]
  have hg1rng : gs1.rng = rng1 := by rw [hgs1]
  have hg1points : gs1.points = gs.points := by rw [hgs1]
  have hpos_not_occ : pos ∉ occupiedCells gs :=
    fun hmem => hpos_fresh ((hInv.excl_iff _).2 ⟨pos, hmem, rfl⟩)
  refine ⟨indexOfFoodToBeEaten_some gs i hidx, ?_, ?_, ?_, pos, ?_, ?_, hpos_not_occ,
    hpos_box, ?_⟩
  · rw [hsnake, hgbody]
    show gs1.snake.targetBlock :: gs1.snake.body = _
    rw [hg1snake]
  · rw [hsnake, hgbody]
    show (gs1.snake.targetBlock :: gs1.snake.body).length = _
    rw [hg1snake]
    rfl
  · rw [hpoints, hg1points]
  · rw [hfoods, hg1foods]
  · rw [hrng, hg1rng, hmem1]
    exact Or.inr rfl
  · rw [hevs, hevs1, hgrow2, hg1snake, hg1points]
    rfl

/-- The draw stream that makes the constructor place food 0 at
`(1, 0, 0)`, straight ahead of the initial snake. -/
def eatDraws : Nat → Nat := fun k => if k = 0 then 4630 else 0

/-- The constructed state with food 0 directly ahead of the snake. -/
def eatSetupState : GameState :=
  match mkGameState eatDraws with
  | .ok (gs, _) => gs
  | .error _ => initialGameState

/-- The state after the eating tick of `eatSetupState`. -/
def eatTickState : GameState :=
  match eatSetupState.goToNextState 0 with
  | .ok (gs, _, _) => gs
  | .error _ => initialGameState

/-- The events of that eating tick. -/
def eatTickEvents : List Event :=
  match eatSetupState.goToNextState 0 with
  | .ok (_, evs, _) => evs
  | .error _ => []

/-- Witness for C5: a constructed (hence invariant-satisfying) game whose
first tick eats the food ahead; the score increments. -/
theorem spec_c5_eating_tick_witness :
    eatTickState.points = eatSetupState.points + 1 :=
  ((spec_c5_eating_tick.1 eatSetupState 0 0 eatTickState eatTickEvents none
    (mkGameState_inv eatDraws eatSetupState
      (match mkGameState eatDraws with
        | .ok (_, evs) => evs
        | .error _ => []) rfl)
    rfl rfl).2.2.2).1

end Snake3D
